import Mathlib

/-!
Verification development for the NeST network-emulation library.

The definitions below are shallow embeddings of the Python sources:

* `src/nest/experiment/run_exp.py` — the experiment scheduler
  (`run_experiment`, `setup_tcp_flows`, `setup_udp_flows`, `setup_ss_runners`,
  `setup_tc_runners`, `setup_ping_runners`, `setup_coap_runners`,
  `_get_start_stop_time_for_ss`, `cleanup`, `progress_bar`);
* `src/nest/experiment/parser/netperf.py` — `NetperfRunner.parse`;
* `src/nest/topology/network.py` — the `Network` context manager;
* `src/nest/clean_up.py` — `kill_processes` / `delete_namespaces`.

Numeric flow times are modelled as integers (`ℤ`); the Python floats
`float("inf")` / `float("-inf")` used as defaultdict seeds are modelled as
`⊤ : WithTop ℤ` and `⊥ : WithBot ℤ`.  Python dicts are modelled as
insertion-ordered association lists, Python sets as dedup-inserting lists.
-/

namespace NeST

/-- Endpoint key `(src_ns, dst_ns, dst_addr)` used by the scheduler for the
`ss_schedules` and `ping_schedules` dictionaries. -/
abbrev EndpointKey := String × String × String

/-- Association-list lookup, modelling a Python `dict` read `m[k]`
(first entry with the given key, but keys are kept unique throughout). -/
def lookupA {α β : Type} [DecidableEq α] (m : List (α × β)) (k : α) : Option β :=
  match m with
  | [] => none
  | (k₁, v) :: rest => if k₁ = k then some v else lookupA rest k

/-- Insertion-ordered association-list update, modelling a Python dict
assignment `m[k] = f(m.get(k))`: an existing key keeps its position,
a new key is appended at the end. -/
def updateAssoc {α β : Type} [DecidableEq α] (m : List (α × β)) (k : α)
    (f : Option β → β) : List (α × β) :=
  match m with
  | [] => [(k, f none)]
  | (k₁, v) :: rest =>
      if k₁ = k then (k₁, f (some v)) :: rest
      else (k₁, v) :: updateAssoc rest k f

/-- The keys of an association list, in order. -/
def keysOf {α β : Type} (m : List (α × β)) : List α := m.map (fun e => e.1)

/-! ## Measurement windows (`ss_schedules` / `ping_schedules`) -/

/-- One window contribution processed by the scheduler: an endpoint key together
with a flow's `(start_t, stop_t)`. -/
abbrev Contribution := EndpointKey × ℤ × ℤ

/-- Embeds `_get_start_stop_time_for_ss` (src/nest/experiment/run_exp.py):
if the key is absent the stored window becomes `(start_t, stop_t)`, otherwise it
becomes `(min(min_start, start_t), max(max_stop, stop_t))`. -/
def ssScheduleUpdate (m : List (EndpointKey × ℤ × ℤ)) (k : EndpointKey)
    (startT stopT : ℤ) : List (EndpointKey × ℤ × ℤ) :=
  updateAssoc m k fun prev =>
    match prev with
    | none => (startT, stopT)
    | some (minStart, maxStop) => (min minStart startT, max maxStop stopT)

/-- Embeds the `ping_schedules` update in `run_experiment`
(src/nest/experiment/run_exp.py): `ping_schedules` is a `defaultdict` whose
absent entries read as `(float("inf"), float("-inf"))`, modelled as
`(⊤ : WithTop ℤ, ⊥ : WithBot ℤ)`; the entry becomes
`(min(min_start, start_t), max(max_stop, stop_t))`. -/
def pingScheduleUpdate (m : List (EndpointKey × (WithTop ℤ × WithBot ℤ)))
    (k : EndpointKey) (startT stopT : ℤ) :
    List (EndpointKey × (WithTop ℤ × WithBot ℤ)) :=
  updateAssoc m k fun prev =>
    let p := prev.getD (⊤, ⊥)
    (min p.1 ↑startT, max p.2 ↑stopT)

/-- The `ss_schedules` dictionary obtained by processing a list of
contributions in order, starting from the empty dictionary. -/
def ssSchedulesOf (l : List Contribution) : List (EndpointKey × ℤ × ℤ) :=
  l.foldl (fun m c => ssScheduleUpdate m c.1 c.2.1 c.2.2) []

/-- The `ping_schedules` dictionary obtained by processing a list of
contributions in order, starting from the empty dictionary. -/
def pingSchedulesOf (l : List Contribution) :
    List (EndpointKey × (WithTop ℤ × WithBot ℤ)) :=
  l.foldl (fun m c => pingScheduleUpdate m c.1 c.2.1 c.2.2) []

/-- Written from the spec's words (refinement target): the window for a key is
the interval union over all contributions sharing that key, an absent key
behaving as `[+∞, -∞]`, each contribution taking the window to
`[min(existing.start, flow.start), max(existing.stop, flow.stop)]`. -/
def specWindow (l : List Contribution) (k : EndpointKey) :
    WithTop ℤ × WithBot ℤ :=
  l.foldl
    (fun w c => if c.1 = k then (min w.1 ↑c.2.1, max w.2 ↑c.2.2) else w)
    (⊤, ⊥)

/-- The `(start, stop)` windows of the contributions sharing a given key,
in processing order. -/
def windowsFor (l : List Contribution) (k : EndpointKey) : List (ℤ × ℤ) :=
  (l.filter (fun c => decide (c.1 = k))).map (fun c => c.2)

/-- Union of two finite windows. -/
def mergeWindow (p q : ℤ × ℤ) : ℤ × ℤ := (min p.1 q.1, max p.2 q.2)

/-- One `_get_start_stop_time_for_ss` step seen from a single key's entry. -/
def mergeStep (o : Option (ℤ × ℤ)) (w : ℤ × ℤ) : Option (ℤ × ℤ) :=
  match o with
  | none => some w
  | some p => some (mergeWindow p w)

/-- One `ping_schedules` step seen from a single key's entry. -/
def pingStep (o : Option (WithTop ℤ × WithBot ℤ)) (w : ℤ × ℤ) :
    Option (WithTop ℤ × WithBot ℤ) :=
  some (let p := o.getD (⊤, ⊥); (min p.1 ↑w.1, max p.2 ↑w.2))

/-- Interval union on extended windows. -/
def mergeWindowE (q : WithTop ℤ × WithBot ℤ) (w : ℤ × ℤ) :
    WithTop ℤ × WithBot ℤ :=
  (min q.1 ↑w.1, max q.2 ↑w.2)


/-! ## The `run_experiment` scheduler (src/nest/experiment/run_exp.py) -/

/-- Transport protocol of a `Flow`, `options["protocol"]`. -/
inductive Proto
  | tcp
  | udp
deriving DecidableEq

/-- The measurement tools tracked by `run_experiment`
(`tools = ["netperf", "ss", "tc", "iperf3", "ping", "coap"]`). -/
inductive Tool
  | netperf
  | ss
  | tc
  | iperf3
  | ping
  | coap
deriving DecidableEq

/-- A `Flow` descriptor as destructured by `flow._get_props()`:
`[src_ns, dst_ns, dst_addr, start_t, stop_t, n_flows, options]`. -/
structure Flow where
  srcNs : String
  dstNs : String
  dstAddr : String
  startT : ℤ
  stopT : ℤ
  nFlows : ℕ
  protocol : Proto
  congAlgo : String
  targetBw : String
deriving DecidableEq

/-- A `CoapFlow` descriptor as destructured by `coap_flow._get_props()`:
`[src_ns, dst_ns, dst_addr, n_con_msgs, n_non_msgs, user_options]`.
Server option strings are irrelevant to the scheduler facts proved here;
only the destination namespace drives the dedup logic. -/
structure CoapFlow where
  srcNs : String
  dstNs : String
  dstAddr : String
  nConMsgs : ℕ
  nNonMsgs : ℕ
deriving DecidableEq

/-- `dependencies` as computed by `get_dependency_status`. -/
structure Deps where
  netperf : Bool
  ss : Bool
  tc : Bool
  iperf3 : Bool
  ping : Bool
  coap : Bool
deriving DecidableEq

/-- A `NetperfRunner` as constructed by `setup_tcp_flows`:
`NetperfRunner(src_ns, dst_addr, start_t, stop_t - start_t, dst_ns, **options)`. -/
structure NetperfRunnerSpec where
  nsName : String
  destinationIp : String
  startTime : ℤ
  runTime : ℤ
  dstNs : String
  congAlgo : String
deriving DecidableEq

/-- An `Iperf3Runner` as constructed by `setup_udp_flows`. -/
structure Iperf3RunnerSpec where
  nsName : String
  destinationIp : String
  targetBw : String
  nFlows : ℕ
  startTime : ℤ
  runTime : ℤ
  dstNs : String
deriving DecidableEq

/-- An `SsRunner` as constructed by `setup_ss_runners`:
`SsRunner(src_ns, dst_addr, timings[0], timings[1] - timings[0], dst_ns,
ss_filter=ss_filter)`. -/
structure SsRunnerSpec where
  nsName : String
  destinationIp : String
  startTime : ℤ
  runTime : ℤ
  dstNs : String
  ssFilter : String
deriving DecidableEq

/-- A `TcRunner` as constructed by `setup_tc_runners`:
`TcRunner(ns_id, int_id, qdisc, exp_end)`. -/
structure TcRunnerSpec where
  nsId : String
  intId : String
  qdisc : String
  expEnd : WithBot ℤ
deriving DecidableEq

/-- A `CoAPRunner` as constructed by `setup_coap_runners`. -/
structure CoapRunnerSpec where
  srcNs : String
  destAddr : String
  nConMsgs : ℕ
  nNonMsgs : ℕ
deriving DecidableEq

/-- One entry of `exp.qdisc_stats`. -/
structure QdiscStat where
  nsId : String
  intId : String
  qdisc : String
deriving DecidableEq

/-- Python `set.add`, on a list kept duplicate-free by construction. -/
def sInsert (l : List String) (x : String) : List String :=
  if x ∈ l then l else l ++ [x]

/-- The `ss` filter clause added for every TCP flow:
ignore the netperf control connection (port 12865). -/
def netperfSsFilter : String := "sport != 12865 and dport != 12865"

/-- The `ss` filter clause added for every UDP flow:
ignore the iperf3 control connection (port 5201). -/
def iperf3SsFilter : String := "sport != 5201 and dport != 5201"

/-- The scheduler's accumulated state while `run_experiment` iterates over
`exp.flows` and `exp.coap_flows`: the per-tool `destination_nodes` sets, the
`ss_schedules` / `ping_schedules` dictionaries, `exp_end_t`, `ss_required`,
the `ss_filters` set, the accumulated runner lists, the server-start calls
issued so far (`NetperfRunner.run_netserver`, `Iperf3Runner.run_server`,
`CoAPRunner.run_server`), and the `show_progress_bar` config value. -/
structure ExpState where
  netperfDests : List String
  iperf3Dests : List String
  coapDests : List String
  ssSchedules : List (EndpointKey × ℤ × ℤ)
  pingSchedules : List (EndpointKey × (WithTop ℤ × WithBot ℤ))
  expEndT : WithBot ℤ
  ssRequired : Bool
  ssFilters : List String
  netperfRunners : List NetperfRunnerSpec
  iperf3Runners : List Iperf3RunnerSpec
  coapRunners : List CoapRunnerSpec
  serverStarts : List (Tool × String)
  showProgressBar : Bool
deriving DecidableEq

/-- Initial scheduler state: empty sets and dictionaries,
`exp_end_t = float("-inf")`. -/
def initState (showProgressBar : Bool) : ExpState :=
  { netperfDests := []
    iperf3Dests := []
    coapDests := []
    ssSchedules := []
    pingSchedules := []
    expEndT := ⊥
    ssRequired := false
    ssFilters := []
    netperfRunners := []
    iperf3Runners := []
    coapRunners := []
    serverStarts := []
    showProgressBar := showProgressBar }

/-- Embeds `setup_tcp_flows`: if netperf is missing only a warning is logged;
otherwise a netserver is started on the destination unless one already runs
there, `n_flows` `NetperfRunner`s are appended, and the `ss` schedule for the
flow's endpoint triple is merged via `_get_start_stop_time_for_ss`. -/
def setupTcpFlows (dep : Bool) (f : Flow) (st : ExpState) : ExpState :=
  if dep then
    { st with
      serverStarts :=
        if f.dstNs ∈ st.netperfDests then st.serverStarts
        else st.serverStarts ++ [(Tool.netperf, f.dstNs)]
      netperfRunners := st.netperfRunners ++
        List.replicate f.nFlows
          { nsName := f.srcNs, destinationIp := f.dstAddr,
            startTime := f.startT, runTime := f.stopT - f.startT,
            dstNs := f.dstNs, congAlgo := f.congAlgo }
      ssSchedules :=
        ssScheduleUpdate st.ssSchedules (f.srcNs, f.dstNs, f.dstAddr)
          f.startT f.stopT }
  else st

/-- Embeds `setup_udp_flows`: if iperf3 is missing only a warning is logged;
otherwise an iperf3 server is started on the destination unless one already
runs there and a single `Iperf3Runner` is appended. -/
def setupUdpFlows (dep : Bool) (f : Flow) (st : ExpState) : ExpState :=
  if dep then
    { st with
      serverStarts :=
        if f.dstNs ∈ st.iperf3Dests then st.serverStarts
        else st.serverStarts ++ [(Tool.iperf3, f.dstNs)]
      iperf3Runners := st.iperf3Runners ++
        [{ nsName := f.srcNs, destinationIp := f.dstAddr,
           targetBw := f.targetBw, nFlows := f.nFlows,
           startTime := f.startT, runTime := f.stopT - f.startT,
           dstNs := f.dstNs }] }
  else st

/-- Embeds the body of the `for flow in exp.flows` loop of `run_experiment`:
update `exp_end_t` and `ping_schedules`, then dispatch on the protocol;
the flow's destination is added to the tool's `destination_nodes` set after
the per-tool setup call, whether or not the tool is installed. -/
def processFlow (deps : Deps) (st : ExpState) (f : Flow) : ExpState :=
  let st := { st with
    expEndT := max st.expEndT ↑f.stopT
    pingSchedules :=
      pingScheduleUpdate st.pingSchedules (f.srcNs, f.dstNs, f.dstAddr)
        f.startT f.stopT }
  match f.protocol with
  | Proto.tcp =>
      let st := { st with
        ssFilters := sInsert st.ssFilters netperfSsFilter
        ssRequired := true }
      let st := setupTcpFlows deps.netperf f st
      { st with netperfDests := sInsert st.netperfDests f.dstNs }
  | Proto.udp =>
      let st := { st with ssFilters := sInsert st.ssFilters iperf3SsFilter }
      let st := setupUdpFlows deps.iperf3 f st
      { st with iperf3Dests := sInsert st.iperf3Dests f.dstNs }

/-- Embeds the body of the `for coap_flow in exp.coap_flows` loop of
`run_experiment`: the progress bar is disabled, a CoAP server is started on
the destination unless one already runs there (when aiocoap is installed),
one `CoAPRunner` is appended, and the destination is recorded. -/
def processCoapFlow (deps : Deps) (st : ExpState) (cf : CoapFlow) : ExpState :=
  let st := { st with showProgressBar := false }
  let st :=
    if deps.coap then
      { st with
        serverStarts :=
          if cf.dstNs ∈ st.coapDests then st.serverStarts
          else st.serverStarts ++ [(Tool.coap, cf.dstNs)]
        coapRunners := st.coapRunners ++
          [{ srcNs := cf.srcNs, destAddr := cf.dstAddr,
             nConMsgs := cf.nConMsgs, nNonMsgs := cf.nNonMsgs }] }
    else st
  { st with coapDests := sInsert st.coapDests cf.dstNs }

/-- The scheduler state after `run_experiment` has processed all flows and
CoAP flows, starting from the given `show_progress_bar` configuration. -/
def schedulerState (deps : Deps) (showProgressBar : Bool)
    (flows : List Flow) (coapFlows : List CoapFlow) : ExpState :=
  coapFlows.foldl (processCoapFlow deps)
    (flows.foldl (processFlow deps) (initState showProgressBar))

/-- `" and ".join(...)` over the accumulated filter clauses. -/
def sAndJoin (l : List String) : String :=
  match l with
  | [] => ""
  | x :: xs => xs.foldl (fun acc c => acc ++ " and " ++ c) x

/-- Embeds `setup_ss_runners`, guarded by `ss_required` as in
`run_experiment`: one `SsRunner` per `ss_schedules` entry, each receiving the
joined `ss_filter`. -/
def ssRunnersOf (deps : Deps) (st : ExpState) : List SsRunnerSpec :=
  if st.ssRequired then
    if deps.ss then
      st.ssSchedules.map fun kv =>
        { nsName := kv.1.1, destinationIp := kv.1.2.2,
          startTime := kv.2.1, runTime := kv.2.2 - kv.2.1,
          dstNs := kv.1.2.1, ssFilter := sAndJoin st.ssFilters }
    else []
  else []

/-- Embeds `setup_tc_runners`: one `TcRunner` per requested qdisc stat, each
ending at `exp_end`. -/
def tcRunnersOf (deps : Deps) (qdiscStats : List QdiscStat)
    (expEnd : WithBot ℤ) : List TcRunnerSpec :=
  if deps.tc = true ∧ 0 < qdiscStats.length then
    qdiscStats.map fun q =>
      { nsId := q.nsId, intId := q.intId, qdisc := q.qdisc, expEnd := expEnd }
  else []

/-- Embeds the progress-bar worker added by `setup_flow_workers`: present iff
`show_progress_bar` is set, with total duration `exp_stop_time = exp_end_t`. -/
def flowWorkersProgress (st : ExpState) : Option (WithBot ℤ) :=
  if st.showProgressBar then some st.expEndT else none

/-- The contributions the scheduler feeds to `_get_start_stop_time_for_ss`:
one per TCP flow, in order. -/
def tcpContribs (flows : List Flow) : List Contribution :=
  (flows.filter (fun f => decide (f.protocol = Proto.tcp))).map
    (fun f => ((f.srcNs, f.dstNs, f.dstAddr), f.startT, f.stopT))

/-- `c` occurs as a contiguous substring of `s`. -/
def strContains (c s : String) : Prop :=
  ∃ pre post : List Char, s.data = pre ++ c.data ++ post

/-- Invariant tying the server-start calls issued so far to the per-tool
`destination_nodes` sets. -/
def ServerInv (deps : Deps) (st : ExpState) : Prop :=
  st.serverStarts.Nodup ∧
  (∀ d, ((Tool.netperf, d) ∈ st.serverStarts ↔
    deps.netperf = true ∧ d ∈ st.netperfDests)) ∧
  (∀ d, ((Tool.iperf3, d) ∈ st.serverStarts ↔
    deps.iperf3 = true ∧ d ∈ st.iperf3Dests)) ∧
  (∀ d, ((Tool.coap, d) ∈ st.serverStarts ↔
    deps.coap = true ∧ d ∈ st.coapDests)) ∧
  (∀ d, (Tool.ss, d) ∉ st.serverStarts) ∧
  (∀ d, (Tool.tc, d) ∉ st.serverStarts) ∧
  (∀ d, (Tool.ping, d) ∉ st.serverStarts)

/-- All tools installed. -/
def allDeps : Deps :=
  { netperf := true, ss := true, tc := true, iperf3 := true,
    ping := true, coap := true }

/-- The spec's end-to-end scenario: three concurrent TCP flows between the
same endpoint pair with windows `[0,5]`, `[2,8]`, `[1,3]`. -/
def scenarioFlows : List Flow :=
  [{ srcNs := "h1", dstNs := "h2", dstAddr := "10.0.0.2", startT := 0,
     stopT := 5, nFlows := 1, protocol := Proto.tcp, congAlgo := "cubic",
     targetBw := "" },
   { srcNs := "h1", dstNs := "h2", dstAddr := "10.0.0.2", startT := 2,
     stopT := 8, nFlows := 1, protocol := Proto.tcp, congAlgo := "cubic",
     targetBw := "" },
   { srcNs := "h1", dstNs := "h2", dstAddr := "10.0.0.2", startT := 1,
     stopT := 3, nFlows := 1, protocol := Proto.tcp, congAlgo := "cubic",
     targetBw := "" }]

/-! ## The experiment driver and cleanup
(src/nest/experiment/run_exp.py, src/nest/clean_up.py) -/

/-- Embeds `cleanup` (src/nest/experiment/run_exp.py): the Result Stores
cleared via `remove_all_results`, in source order.  The source clears
`SsResults`, `NetperfResults`, `TcResults`, `PingResults` and `CoAPResults`;
`Iperf3Results` does not appear. -/
def cleanupClearedStores : List Tool :=
  [Tool.ss, Tool.netperf, Tool.tc, Tool.ping, Tool.coap]

/-- Observable outcome of one `run_experiment` call plus process exit. -/
structure RunOutcome where
  completeLogged : Bool
  incompleteLogged : Bool
  resultsPublished : Bool
  clearedStores : List Tool
  killedNamespaces : List String
  namespacesDeletedAtExit : List String
deriving DecidableEq

/-- Embeds the `try/except KeyboardInterrupt/finally` structure of
`run_experiment` together with `cleanup`, `kill_processes` and the
`atexit`-registered `delete_namespaces` (src/nest/clean_up.py).
`interrupted` says whether a `KeyboardInterrupt` arrived during the
generation phase; `namespaces` is `TopologyMap.get_namespaces()`.  On an
interrupt the body is abandoned before `dump_json_ouputs` (so no results are
published), the "forcefully stopped ... incomplete" warning is logged instead
of "Experiment complete", and the `finally` block still runs `cleanup()`:
every cleared store has `remove_all_results` called and every registered
namespace has its processes killed; `delete_namespaces` deletes every
registered namespace at process exit on either path. -/
def runExperimentDriver (interrupted : Bool) (namespaces : List String) :
    RunOutcome :=
  { completeLogged := !interrupted
    incompleteLogged := interrupted
    resultsPublished := !interrupted
    clearedStores := cleanupClearedStores
    killedNamespaces := namespaces
    namespacesDeletedAtExit := namespaces }

/-! ## Device-name validation (modelled from the spec) -/

/-- The `ValueError` message for a too-long device name, as asserted by
`test_invalid_interface_name` and `test_invalid_ifb_interface_name`
(src/nest/tests/test_topology.py). -/
def deviceNameTooLongMsg (name : String) : String :=
  "Device name " ++ name ++
    " is too long. Device names should not exceed 15 characters"

/-- The `ValueError` message for a too-long auto-derived veth name, as
asserted by `test_invalid_veth_name` (src/nest/tests/test_topology.py). -/
def autoNameTooLongMsg (name : String) : String :=
  "Auto-generated device name " ++ name ++
    " is too long. The length of name should not exceed 15 characters."

/-- The configuration errors raised by device-name validation. -/
inductive NameError
  | deviceNameTooLong (name : String) (limit : ℕ)
  | autoNameTooLong (name : String) (limit : ℕ)
deriving DecidableEq

/-- The message carried by a name-validation error. -/
def nameErrorMsg : NameError → String
  | NameError.deviceNameTooLong n _ => deviceNameTooLongMsg n
  | NameError.autoNameTooLong n _ => autoNameTooLongMsg n

/-- Modelled from the spec: the device-name length validation of the topology
layer (`nest.topology.device` is not under `src/`; the 15-character limit and
the exact error strings are those asserted by
src/nest/tests/test_topology.py).  Creating an interface with a user-supplied
name validates the name first and returns the kernel calls only on success,
so a long name fails before any kernel call is attempted. -/
def createDevice (name : String) : Except NameError (List String) :=
  if name.length > 15 then
    Except.error (NameError.deviceNameTooLong name 15)
  else Except.ok ["ip link add " ++ name]

/-- Modelled from the spec: the auto-derived veth device name
`"{node1.name}-{node2.name}-{n}"` used by `connect` when random names are
disabled (implementation not under `src/`; naming rule asserted by
`test_valid_veth_name`). -/
def vethDeviceName (nodeA nodeB : String) (n : ℕ) : String :=
  nodeA ++ "-" ++ nodeB ++ "-" ++ toString n

/-- Modelled from the spec: `connect` validates the auto-derived veth name
before any kernel call (`test_invalid_veth_name`). -/
def createVethPair (nodeA nodeB : String) (n : ℕ) :
    Except NameError (List String) :=
  let name := vethDeviceName nodeA nodeB n
  if name.length > 15 then
    Except.error (NameError.autoNameTooLong name 15)
  else
    Except.ok ["ip link add " ++ name ++ " type veth peer name " ++
      vethDeviceName nodeB nodeA n]

/-- Modelled from the spec: the ingress-shaping (ifb) device name derived
from an interface name (`test_invalid_ifb_interface_name`). -/
def ifbDeviceName (ifname : String) : String := "ifb-" ++ ifname

/-- Modelled from the spec: `set_attributes` with a qdisc triggers ingress
shaping, which derives the ifb device name and validates it — raising with
the derived shaping name, not the original name — before any kernel call
(`test_invalid_ifb_interface_name`). -/
def setAttributesIfb (ifname : String) : Except NameError (List String) :=
  let name := ifbDeviceName ifname
  if name.length > 15 then
    Except.error (NameError.deviceNameTooLong name 15)
  else Except.ok ["ip link add " ++ name ++ " type ifb"]

/-! ## Address deletion (modelled from the spec) -/

/-- Result of `del_address`: the updated assigned-address list and the
warnings logged. -/
structure DelAddrResult where
  addresses : List String
  warnings : List String
deriving DecidableEq

/-- Modelled from the spec: `Device.del_address` (the implementation,
`nest.topology.device`, is not under `src/`): deleting an address that is not
currently assigned logs the warning asserted by `test_del_addr`
(src/nest/tests/test_topology.py) and leaves the list unchanged, never
raising; deleting an assigned address removes that entry. -/
def delAddress (addrs : List String) (addr : String) : DelAddrResult :=
  if addr ∈ addrs then
    { addresses := addrs.erase addr, warnings := [] }
  else
    { addresses := addrs,
      warnings :=
        ["Cannot delete an address that is not assigned. (" ++ addr ++ ")"] }

/-! ## `NetperfRunner.parse` (src/nest/experiment/parser/netperf.py) -/

/-- Raw netperf output abstracted as the lines relevant to the three regex
scans of `NetperfRunner.parse`. -/
inductive NetperfOutputLine
  | interimResult (throughput : String)
  | ending (timestamp : String)
  | remotePort (port : String)
  | other (line : String)
deriving DecidableEq

/-- The `NETPERF_INTERIM_RESULT[i]=<throughput>` extraction. -/
def interimThroughput? : NetperfOutputLine → Option String
  | NetperfOutputLine.interimResult t => some t
  | _ => none

/-- The `NETPERF_ENDING[i]=<timestamp>` extraction. -/
def endingTimestamp? : NetperfOutputLine → Option String
  | NetperfOutputLine.ending t => some t
  | _ => none

/-- The `remote port is <port>` extraction. -/
def remotePort? : NetperfOutputLine → Option String
  | NetperfOutputLine.remotePort p => some p
  | _ => none

/-- The exceptions `NetperfRunner.parse` can raise. -/
inductive NetperfParseError
  | attributeErrorNoRemotePort
  | nameErrorStatsDictUnbound
  | indexErrorTimestamps
deriving DecidableEq

/-- Embeds `NetperfRunner.parse` over raw output abstracted as matched
lines: `throughputs` and `timestamps` are the `re.finditer` extractions in
output order and `remote_port` the first `re.search` match.  The Python code
raises `AttributeError` when no remote-port line exists (`re.search` returns
`None` and `.group` is called on it), raises `NameError` when there are zero
interim results (`stats_dict` is bound only inside the per-throughput loop
but used after it), and raises `IndexError` when `timestamps[i]` is out of
range; otherwise it deposits, under the key `dest_ip:remote_port`, the list
pairing the i-th timestamp with the i-th throughput. -/
def netperfParse (raw : List NetperfOutputLine) (destinationIp : String) :
    Except NetperfParseError (String × List (String × String)) :=
  let throughputs := raw.filterMap interimThroughput?
  let timestamps := raw.filterMap endingTimestamp?
  match (raw.filterMap remotePort?).head? with
  | none => Except.error NetperfParseError.attributeErrorNoRemotePort
  | some remotePort =>
      if throughputs.isEmpty then
        Except.error NetperfParseError.nameErrorStatsDictUnbound
      else if timestamps.length < throughputs.length then
        Except.error NetperfParseError.indexErrorTimestamps
      else
        Except.ok (destinationIp ++ ":" ++ remotePort,
          timestamps.zip throughputs)

/-- A sample captured netperf output with a remote-port line and two interim
results. -/
def netperfSampleOutput : List NetperfOutputLine :=
  [NetperfOutputLine.other "MIGRATED TCP STREAM TEST",
   NetperfOutputLine.remotePort "40213",
   NetperfOutputLine.interimResult "94.03",
   NetperfOutputLine.ending "1.21",
   NetperfOutputLine.interimResult "95.00",
   NetperfOutputLine.ending "1.41"]

/-! ## The `Network` context manager (src/nest/topology/network.py) -/

/-- The process-wide `Network.current_network` pointer; networks are
identified by a number. -/
structure NetworkCtx where
  currentNetwork : Option ℕ
deriving DecidableEq

/-- Embeds `Network.__enter__`: `Network.current_network = self`. -/
def networkEnter (n : ℕ) (st : NetworkCtx) : NetworkCtx :=
  { st with currentNetwork := some n }

/-- Embeds `Network.__exit__(*args)`: `Network.current_network = None`,
whatever the exception arguments are. -/
def networkExit (st : NetworkCtx) : NetworkCtx :=
  { st with currentNetwork := none }

/-- A `with network:` block: `__enter__`, then the body (which either
finishes normally — `none` — or raises — `some err`), then `__exit__`, which
Python runs on both paths; `__exit__` returns `None` (falsy), so an exception
keeps propagating. -/
def withNetwork (n : ℕ) (body : NetworkCtx → NetworkCtx × Option String)
    (st : NetworkCtx) : NetworkCtx × Option String :=
  let entered := networkEnter n st
  let res := body entered
  (networkExit res.1, res.2)

/-! ## Lemmas and theorems -/

theorem lookupA_cons_self {α β : Type} [DecidableEq α]
    (k : α) (v : β) (rest : List (α × β)) :
    lookupA ((k, v) :: rest) k = some v := by
  simp [lookupA]

theorem lookupA_cons_ne {α β : Type} [DecidableEq α]
    {k₁ k : α} (v : β) (rest : List (α × β)) (h : k₁ ≠ k) :
    lookupA ((k₁, v) :: rest) k = lookupA rest k := by
  simp [lookupA, h]

theorem updateAssoc_cons_self {α β : Type} [DecidableEq α]
    (k : α) (v : β) (rest : List (α × β)) (f : Option β → β) :
    updateAssoc ((k, v) :: rest) k f = (k, f (some v)) :: rest := by
  simp [updateAssoc]

theorem updateAssoc_cons_ne {α β : Type} [DecidableEq α]
    {k₁ k : α} (v : β) (rest : List (α × β)) (f : Option β → β) (h : k₁ ≠ k) :
    updateAssoc ((k₁, v) :: rest) k f = (k₁, v) :: updateAssoc rest k f := by
  simp [updateAssoc, h]

theorem lookupA_updateAssoc_self {α β : Type} [DecidableEq α]
    (m : List (α × β)) (k : α) (f : Option β → β) :
    lookupA (updateAssoc m k f) k = some (f (lookupA m k)) := by
  induction m with
  | nil => simp [updateAssoc, lookupA]
  | cons e rest ih =>
      obtain ⟨k₁, v⟩ := e
      by_cases h : k₁ = k
      · simp [updateAssoc, lookupA, h]
      · simp [updateAssoc, lookupA, h, ih]

theorem lookupA_updateAssoc_ne {α β : Type} [DecidableEq α]
    (m : List (α × β)) (k k' : α) (f : Option β → β) (h : k' ≠ k) :
    lookupA (updateAssoc m k f) k' = lookupA m k' := by
  have hne : k ≠ k' := fun hh => h hh.symm
  induction m with
  | nil =>
      simp [updateAssoc, lookupA, hne]
  | cons e rest ih =>
      obtain ⟨k₁, v⟩ := e
      by_cases h₁ : k₁ = k
      · subst h₁
        simp [updateAssoc, lookupA, hne]
      · simp [updateAssoc, lookupA, h₁, ih]

theorem keysOf_updateAssoc {α β : Type} [DecidableEq α]
    (m : List (α × β)) (k : α) (f : Option β → β) (k' : α) :
    k' ∈ keysOf (updateAssoc m k f) ↔ k' = k ∨ k' ∈ keysOf m := by
  induction m with
  | nil => simp [updateAssoc, keysOf]
  | cons e rest ih =>
      obtain ⟨k₁, v⟩ := e
      by_cases h : k₁ = k
      · subst h
        rw [updateAssoc_cons_self]
        simp only [keysOf, List.map_cons, List.mem_cons]
        tauto
      · rw [updateAssoc_cons_ne v rest f h]
        simp only [keysOf, List.map_cons, List.mem_cons] at ih ⊢
        rw [ih]
        tauto

theorem nodup_keysOf_updateAssoc {α β : Type} [DecidableEq α]
    (m : List (α × β)) (k : α) (f : Option β → β)
    (h : (keysOf m).Nodup) : (keysOf (updateAssoc m k f)).Nodup := by
  induction m with
  | nil => simp [updateAssoc, keysOf]
  | cons e rest ih =>
      obtain ⟨k₁, v⟩ := e
      simp only [keysOf, List.map_cons, List.nodup_cons] at h
      by_cases hk : k₁ = k
      · subst hk
        rw [updateAssoc_cons_self]
        simpa [keysOf, List.nodup_cons] using h
      · have h₁ := h.1
        have h₂ := ih h.2
        rw [updateAssoc_cons_ne v rest f hk]
        simp only [keysOf, List.map_cons, List.nodup_cons]
        refine ⟨?_, h₂⟩
        intro hmem
        rcases (keysOf_updateAssoc rest k f k₁).1 hmem with h' | h'
        · exact hk h'
        · exact h₁ (by simpa [keysOf] using h')

theorem lookupA_eq_some_of_mem {α β : Type} [DecidableEq α]
    {m : List (α × β)} {k : α} {v : β}
    (hnd : (keysOf m).Nodup) (hmem : (k, v) ∈ m) :
    lookupA m k = some v := by
  induction m with
  | nil => simp at hmem
  | cons e rest ih =>
      obtain ⟨k₁, v₁⟩ := e
      simp only [keysOf, List.map_cons, List.nodup_cons] at hnd
      rcases List.mem_cons.1 hmem with h | h
      · injection h with h₁ h₂
        subst h₁
        subst h₂
        simp [lookupA]
      · have hk : k₁ ≠ k := by
          intro hk
          subst hk
          refine hnd.1 ?_
          exact List.mem_map.2 ⟨(k₁, v), h, rfl⟩
        have ih' := ih hnd.2 h
        simp [lookupA, hk, ih']

theorem mem_of_lookupA_eq_some {α β : Type} [DecidableEq α]
    {m : List (α × β)} {k : α} {v : β}
    (h : lookupA m k = some v) : (k, v) ∈ m := by
  induction m with
  | nil => simp [lookupA] at h
  | cons e rest ih =>
      obtain ⟨k₁, v₁⟩ := e
      by_cases hk : k₁ = k
      · subst hk
        rw [lookupA_cons_self] at h
        injection h with h'
        rw [← h']
        exact List.mem_cons_self ..
      · rw [lookupA_cons_ne v₁ rest hk] at h
        exact List.mem_cons_of_mem _ (ih h)

theorem windowsFor_cons (c : Contribution) (l : List Contribution)
    (k : EndpointKey) :
    windowsFor (c :: l) k =
      if c.1 = k then c.2 :: windowsFor l k else windowsFor l k := by
  by_cases h : c.1 = k
  · simp [windowsFor, List.filter, h]
  · simp [windowsFor, List.filter, h]

theorem lookupA_ssSchedules_from (l : List Contribution) :
    ∀ (m : List (EndpointKey × ℤ × ℤ)) (k : EndpointKey),
      lookupA (l.foldl (fun m c => ssScheduleUpdate m c.1 c.2.1 c.2.2) m) k =
        (windowsFor l k).foldl mergeStep (lookupA m k) := by
  induction l with
  | nil => intro m k; rfl
  | cons c rest ih =>
      intro m k
      rw [List.foldl_cons, ih, windowsFor_cons]
      by_cases h : c.1 = k
      · rw [if_pos h]
        rw [List.foldl_cons]
        congr 1
        subst h
        rw [ssScheduleUpdate, lookupA_updateAssoc_self]
        cases ho : lookupA m c.1 with
        | none => rfl
        | some p => cases p; rfl
      · rw [if_neg h]
        congr 1
        rw [ssScheduleUpdate,
          lookupA_updateAssoc_ne _ _ _ _ (fun hh => h hh.symm)]

theorem lookupA_pingSchedules_from (l : List Contribution) :
    ∀ (m : List (EndpointKey × (WithTop ℤ × WithBot ℤ))) (k : EndpointKey),
      lookupA (l.foldl (fun m c => pingScheduleUpdate m c.1 c.2.1 c.2.2) m) k =
        (windowsFor l k).foldl pingStep (lookupA m k) := by
  induction l with
  | nil => intro m k; rfl
  | cons c rest ih =>
      intro m k
      rw [List.foldl_cons, ih, windowsFor_cons]
      by_cases h : c.1 = k
      · rw [if_pos h]
        rw [List.foldl_cons]
        congr 1
        subst h
        rw [pingScheduleUpdate, lookupA_updateAssoc_self]
        rfl
      · rw [if_neg h]
        congr 1
        rw [pingScheduleUpdate,
          lookupA_updateAssoc_ne _ _ _ _ (fun hh => h hh.symm)]

theorem foldl_mergeStep_some (ws : List (ℤ × ℤ)) :
    ∀ p : ℤ × ℤ, ws.foldl mergeStep (some p) = some (ws.foldl mergeWindow p) := by
  induction ws with
  | nil => intro p; rfl
  | cons w rest ih => intro p; rw [List.foldl_cons, List.foldl_cons]; exact ih _

theorem foldl_pingStep_some (ws : List (ℤ × ℤ)) :
    ∀ q : WithTop ℤ × WithBot ℤ,
      ws.foldl pingStep (some q) = some (ws.foldl mergeWindowE q) := by
  induction ws with
  | nil => intro q; rfl
  | cons w rest ih =>
      intro q
      rw [List.foldl_cons, List.foldl_cons]
      have : pingStep (some q) w = some (mergeWindowE q w) := rfl
      rw [this]
      exact ih _

/-- Lift a finite window to the extended domain. -/
def liftWindow (p : ℤ × ℤ) : WithTop ℤ × WithBot ℤ := (↑p.1, ↑p.2)

theorem liftWindow_foldl (ws : List (ℤ × ℤ)) :
    ∀ p : ℤ × ℤ,
      liftWindow (ws.foldl mergeWindow p) = ws.foldl mergeWindowE (liftWindow p) := by
  induction ws with
  | nil => intro p; rfl
  | cons w rest ih =>
      intro p
      rw [List.foldl_cons, List.foldl_cons, ih]
      have hinit : liftWindow (mergeWindow p w) = mergeWindowE (liftWindow p) w := by
        show ((↑(min p.1 w.1) : WithTop ℤ), (↑(max p.2 w.2) : WithBot ℤ)) =
          (min ↑p.1 ↑w.1, max ↑p.2 ↑w.2)
        rw [WithTop.coe_min, WithBot.coe_max]
      rw [hinit]

theorem specWindow_eq_foldl (l : List Contribution) (k : EndpointKey) :
    specWindow l k = (windowsFor l k).foldl mergeWindowE (⊤, ⊥) := by
  suffices h : ∀ q : WithTop ℤ × WithBot ℤ,
      l.foldl
        (fun w c => if c.1 = k then (min w.1 ↑c.2.1, max w.2 ↑c.2.2) else w) q =
        (windowsFor l k).foldl mergeWindowE q by
    exact h (⊤, ⊥)
  induction l with
  | nil => intro q; rfl
  | cons c rest ih =>
      intro q
      rw [List.foldl_cons, windowsFor_cons]
      by_cases h : c.1 = k
      · rw [if_pos h, if_pos h, List.foldl_cons, ih]
        rfl
      · rw [if_neg h, if_neg h, ih]

theorem mergeWindowE_top_bot (w : ℤ × ℤ) :
    mergeWindowE (⊤, ⊥) w = liftWindow w := by
  simp only [mergeWindowE, liftWindow]
  rw [Prod.ext_iff]
  exact ⟨min_eq_right le_top, max_eq_right bot_le⟩

theorem windowsFor_ne_nil {l : List Contribution} {k : EndpointKey}
    (h : k ∈ l.map (fun c => c.1)) : windowsFor l k ≠ [] := by
  obtain ⟨c, hc, hck⟩ := List.mem_map.1 h
  have : c.2 ∈ windowsFor l k := by
    refine List.mem_map.2 ⟨c, ?_, rfl⟩
    exact List.mem_filter.2 ⟨hc, by simp [hck]⟩
  intro hnil
  rw [hnil] at this
  simp at this

/-- Core characterization: for any key contributed to at least once, the
`ss_schedules` entry, the `ping_schedules` entry and the spec-side window
all agree. -/
theorem window_core (l : List Contribution) (k : EndpointKey)
    (h : k ∈ l.map (fun c => c.1)) :
    ∃ s t : ℤ,
      lookupA (ssSchedulesOf l) k = some (s, t) ∧
      lookupA (pingSchedulesOf l) k = some (↑s, ↑t) ∧
      specWindow l k = (↑s, ↑t) := by
  obtain ⟨w, ws, hws⟩ := List.exists_cons_of_ne_nil (windowsFor_ne_nil h)
  have hss : lookupA (ssSchedulesOf l) k = some (ws.foldl mergeWindow w) := by
    rw [ssSchedulesOf, lookupA_ssSchedules_from, hws]
    show ws.foldl mergeStep (mergeStep (lookupA ([] : List (EndpointKey × ℤ × ℤ)) k) w) =
      some (ws.foldl mergeWindow w)
    rw [show mergeStep (lookupA ([] : List (EndpointKey × ℤ × ℤ)) k) w = some w from rfl]
    exact foldl_mergeStep_some ws w
  have hping : lookupA (pingSchedulesOf l) k =
      some (ws.foldl mergeWindowE (liftWindow w)) := by
    rw [pingSchedulesOf, lookupA_pingSchedules_from, hws]
    show ws.foldl pingStep
        (pingStep (lookupA ([] : List (EndpointKey × (WithTop ℤ × WithBot ℤ))) k) w) =
      some (ws.foldl mergeWindowE (liftWindow w))
    have h1 : pingStep (lookupA ([] : List (EndpointKey × (WithTop ℤ × WithBot ℤ))) k) w
        = some (mergeWindowE (⊤, ⊥) w) := rfl
    rw [h1, mergeWindowE_top_bot]
    exact foldl_pingStep_some ws (liftWindow w)
  have hspec : specWindow l k = ws.foldl mergeWindowE (liftWindow w) := by
    rw [specWindow_eq_foldl, hws, List.foldl_cons, mergeWindowE_top_bot]
  refine ⟨(ws.foldl mergeWindow w).1, (ws.foldl mergeWindow w).2, ?_, ?_, ?_⟩
  · rw [hss]
  · rw [hping, ← liftWindow_foldl]
    rfl
  · rw [hspec, ← liftWindow_foldl]
    rfl

theorem specWindow_perm {l l' : List Contribution} (hp : l.Perm l')
    (k : EndpointKey) : specWindow l k = specWindow l' k := by
  rw [specWindow_eq_foldl, specWindow_eq_foldl]
  have hwp : (windowsFor l k).Perm (windowsFor l' k) :=
    (hp.filter _).map _
  refine hwp.foldl_eq' ?_ _
  intro x _ y _ q
  simp only [mergeWindowE]
  rw [Prod.ext_iff]
  constructor
  · exact min_right_comm _ _ _
  · rw [max_assoc, max_assoc,
      max_comm ((x.2 : ℤ) : WithBot ℤ) ((y.2 : ℤ) : WithBot ℤ)]

theorem foldl_mergeWindowE_components (ws : List (ℤ × ℤ)) :
    ∀ q : WithTop ℤ × WithBot ℤ,
      ws.foldl mergeWindowE q =
        ((ws.map (fun w => ((w.1 : ℤ) : WithTop ℤ))).foldl min q.1,
         (ws.map (fun w => ((w.2 : ℤ) : WithBot ℤ))).foldl max q.2) := by
  induction ws with
  | nil => intro q; rfl
  | cons w rest ih =>
      intro q
      rw [List.foldl_cons, List.map_cons, List.map_cons, List.foldl_cons,
        List.foldl_cons, ih]
      rfl

/-- **C1.** For every sequence of flow contributions processed by the
scheduler, the `ss` and `ping` window stored for an endpoint key
`(src_ns, dst_ns, dst_addr)` equals
`[minimum of the start times, maximum of the stop times]` over all
contributions sharing that key; it coincides with the spec-side interval
union (`specWindow`, starting from `[+∞, -∞]`, so a first contribution yields
exactly its own interval), and the stored window is independent of the order
in which the contributions are processed. -/
theorem ss_ping_window_merge (l : List Contribution) (k : EndpointKey)
    (h : k ∈ l.map (fun c => c.1)) :
    ∃ s t : ℤ,
      lookupA (ssSchedulesOf l) k = some (s, t) ∧
      lookupA (pingSchedulesOf l) k = some (↑s, ↑t) ∧
      specWindow l k = (↑s, ↑t) ∧
      (↑s = ((windowsFor l k).map (fun w => ((w.1 : ℤ) : WithTop ℤ))).foldl min ⊤ ∧
       ↑t = ((windowsFor l k).map (fun w => ((w.2 : ℤ) : WithBot ℤ))).foldl max ⊥) ∧
      ∀ l' : List Contribution, l.Perm l' →
        lookupA (ssSchedulesOf l') k = some (s, t) ∧
        lookupA (pingSchedulesOf l') k = some (↑s, ↑t) := by
  obtain ⟨s, t, hss, hping, hspec⟩ := window_core l k h
  refine ⟨s, t, hss, hping, hspec, ?_, ?_⟩
  · have hfold := specWindow_eq_foldl l k
    rw [hspec, foldl_mergeWindowE_components] at hfold
    exact ⟨congrArg Prod.fst hfold, congrArg Prod.snd hfold⟩
  · intro l' hp
    have h' : k ∈ l'.map (fun c => c.1) := ((hp.map _).mem_iff).1 h
    obtain ⟨s', t', hss', hping', hspec'⟩ := window_core l' k h'
    have heq : specWindow l' k = ((↑s : WithTop ℤ), (↑t : WithBot ℤ)) := by
      rw [← specWindow_perm hp, hspec]
    rw [hspec'] at heq
    have hs : s' = s := WithTop.coe_injective (congrArg Prod.fst heq)
    have ht : t' = t := WithBot.coe_injective (congrArg Prod.snd heq)
    subst hs
    subst ht
    exact ⟨hss', hping'⟩

/-- Witness for C1, at the spec's concrete example: contributions
`[1,5]`, `[3,10]`, `[0,2]` on one key. -/
theorem ss_ping_window_merge_witness :
    (("h1", "h2", "10.0.0.2") : EndpointKey) ∈
        ([(("h1", "h2", "10.0.0.2"), (1 : ℤ), (5 : ℤ)),
          (("h1", "h2", "10.0.0.2"), (3 : ℤ), (10 : ℤ)),
          (("h1", "h2", "10.0.0.2"), (0 : ℤ), (2 : ℤ))] : List Contribution).map
          (fun c => c.1) ∧
      ∃ s t : ℤ,
        lookupA (ssSchedulesOf
            [(("h1", "h2", "10.0.0.2"), (1 : ℤ), (5 : ℤ)),
             (("h1", "h2", "10.0.0.2"), (3 : ℤ), (10 : ℤ)),
             (("h1", "h2", "10.0.0.2"), (0 : ℤ), (2 : ℤ))])
          ("h1", "h2", "10.0.0.2") = some (s, t) ∧
        lookupA (pingSchedulesOf
            [(("h1", "h2", "10.0.0.2"), (1 : ℤ), (5 : ℤ)),
             (("h1", "h2", "10.0.0.2"), (3 : ℤ), (10 : ℤ)),
             (("h1", "h2", "10.0.0.2"), (0 : ℤ), (2 : ℤ))])
          ("h1", "h2", "10.0.0.2") = some (↑s, ↑t) ∧
        specWindow
            [(("h1", "h2", "10.0.0.2"), (1 : ℤ), (5 : ℤ)),
             (("h1", "h2", "10.0.0.2"), (3 : ℤ), (10 : ℤ)),
             (("h1", "h2", "10.0.0.2"), (0 : ℤ), (2 : ℤ))]
          ("h1", "h2", "10.0.0.2") = (↑s, ↑t) ∧
        (↑s = ((windowsFor
            [(("h1", "h2", "10.0.0.2"), (1 : ℤ), (5 : ℤ)),
             (("h1", "h2", "10.0.0.2"), (3 : ℤ), (10 : ℤ)),
             (("h1", "h2", "10.0.0.2"), (0 : ℤ), (2 : ℤ))]
            ("h1", "h2", "10.0.0.2")).map
              (fun w => ((w.1 : ℤ) : WithTop ℤ))).foldl min ⊤ ∧
         ↑t = ((windowsFor
            [(("h1", "h2", "10.0.0.2"), (1 : ℤ), (5 : ℤ)),
             (("h1", "h2", "10.0.0.2"), (3 : ℤ), (10 : ℤ)),
             (("h1", "h2", "10.0.0.2"), (0 : ℤ), (2 : ℤ))]
            ("h1", "h2", "10.0.0.2")).map
              (fun w => ((w.2 : ℤ) : WithBot ℤ))).foldl max ⊥) ∧
        ∀ l' : List Contribution,
          List.Perm
            [(("h1", "h2", "10.0.0.2"), (1 : ℤ), (5 : ℤ)),
             (("h1", "h2", "10.0.0.2"), (3 : ℤ), (10 : ℤ)),
             (("h1", "h2", "10.0.0.2"), (0 : ℤ), (2 : ℤ))] l' →
            lookupA (ssSchedulesOf l') ("h1", "h2", "10.0.0.2") = some (s, t) ∧
            lookupA (pingSchedulesOf l') ("h1", "h2", "10.0.0.2") = some (↑s, ↑t) :=
  ⟨by decide, ss_ping_window_merge _ _ (by decide)⟩
theorem strContains_of_append (a c b : String) : strContains c (a ++ c ++ b) :=
  ⟨a.data, b.data, by rw [String.data_append, String.data_append]⟩

/-- **C10.** Exiting a `Network` context always resets the process-wide
`Network.current_network` pointer to `None`, on normal exit and on
exceptional exit alike (the exception keeps propagating), and exiting a
nested inner `Network` context clears the pointer entirely rather than
restoring the outer `Network` as the target. -/
theorem network_exit_clears_current_network :
    (∀ st, (networkExit st).currentNetwork = none) ∧
    (∀ (n : ℕ) (body : NetworkCtx → NetworkCtx × Option String) st,
      ((withNetwork n body st).1).currentNetwork = none) ∧
    (∀ (n : ℕ) (st : NetworkCtx) (e : String),
      ((withNetwork n (fun s => (s, some e)) st).1).currentNetwork = none ∧
      (withNetwork n (fun s => (s, some e)) st).2 = some e) ∧
    (∀ (a b : ℕ) (st : NetworkCtx),
      ((withNetwork b (fun s => (s, none)) (networkEnter a st)).1).currentNetwork
          = none ∧
      ((withNetwork b (fun s => (s, none)) (networkEnter a st)).1).currentNetwork
          ≠ some a) :=
  ⟨fun _ => rfl, fun _ _ _ => rfl, fun _ _ _ => ⟨rfl, rfl⟩,
   fun _ _ _ => ⟨rfl, fun h => Option.noConfusion h⟩⟩

/-- **C5.** Evaluating the embedded driver at an interrupted generation
phase: the experiment is reported incomplete (not complete), no results are
published, the `finally` cleanup step runs — killing processes in every
registered namespace, with all namespaces deleted at process exit — but the
stores cleared by `cleanup` are exactly `ss`, `netperf`, `tc`, `ping` and
`coap`: the iperf3 Result Store is missing from `cleanup` in the source. -/
theorem interrupted_run_cleanup :
    (runExperimentDriver true ["ns0", "ns1"]).incompleteLogged = true ∧
    (runExperimentDriver true ["ns0", "ns1"]).completeLogged = false ∧
    (runExperimentDriver true ["ns0", "ns1"]).resultsPublished = false ∧
    (runExperimentDriver true ["ns0", "ns1"]).killedNamespaces = ["ns0", "ns1"] ∧
    (runExperimentDriver true ["ns0", "ns1"]).namespacesDeletedAtExit
        = ["ns0", "ns1"] ∧
    (runExperimentDriver true ["ns0", "ns1"]).clearedStores
        = [Tool.ss, Tool.netperf, Tool.tc, Tool.ping, Tool.coap] ∧
    Tool.iperf3 ∉ (runExperimentDriver true ["ns0", "ns1"]).clearedStores := by
  refine ⟨rfl, rfl, rfl, rfl, rfl, rfl, ?_⟩
  decide

/-- **C8.** Deleting an address that is not currently assigned logs a warning
naming the address, does not raise, and leaves the assigned-address list
unchanged; deleting an assigned address removes exactly that one entry
(its count drops by one, every other address's count is unchanged) and
preserves the relative order of the remaining addresses (the result is a
sublist of the original list). -/
theorem del_address_best_effort (addrs : List String) (addr : String) :
    (addr ∉ addrs →
      (delAddress addrs addr).addresses = addrs ∧
      (delAddress addrs addr).warnings =
        ["Cannot delete an address that is not assigned. (" ++ addr ++ ")"] ∧
      ∀ w ∈ (delAddress addrs addr).warnings, strContains addr w) ∧
    (addr ∈ addrs →
      (delAddress addrs addr).warnings = [] ∧
      (delAddress addrs addr).addresses.length + 1 = addrs.length ∧
      (delAddress addrs addr).addresses.Sublist addrs ∧
      (delAddress addrs addr).addresses.count addr + 1 = addrs.count addr ∧
      ∀ b, b ≠ addr →
        (delAddress addrs addr).addresses.count b = addrs.count b) := by
  constructor
  · intro h
    refine ⟨by simp [delAddress, h], by simp [delAddress, h], ?_⟩
    intro w hw
    simp only [delAddress, if_neg h, List.mem_singleton] at hw
    rw [hw]
    exact strContains_of_append
      "Cannot delete an address that is not assigned. (" addr ")"
  · intro h
    refine ⟨by simp [delAddress, h], ?_, ?_, ?_, ?_⟩
    · simp only [delAddress, if_pos h]
      rw [List.length_erase_of_mem h]
      exact Nat.succ_pred_eq_of_pos (List.length_pos_of_mem h)
    · simp only [delAddress, if_pos h]
      exact List.erase_sublist addr addrs
    · simp only [delAddress, if_pos h]
      rw [List.count_erase_self]
      exact Nat.succ_pred_eq_of_pos (List.count_pos_iff.2 h)
    · intro b hb
      simp only [delAddress, if_pos h]
      rw [List.count_erase_of_ne hb]

/-- Witness for C8 at the test's concrete addresses. -/
theorem del_address_best_effort_witness :
    ("10.0.0.1/24" ∉ ["10.1.1.3/24", "2001::412/122"] ∧
      (delAddress ["10.1.1.3/24", "2001::412/122"] "10.0.0.1/24").addresses
          = ["10.1.1.3/24", "2001::412/122"] ∧
      (delAddress ["10.1.1.3/24", "2001::412/122"] "10.0.0.1/24").warnings =
        ["Cannot delete an address that is not assigned. (" ++ "10.0.0.1/24"
          ++ ")"] ∧
      ∀ w ∈ (delAddress ["10.1.1.3/24", "2001::412/122"] "10.0.0.1/24").warnings,
        strContains "10.0.0.1/24" w) ∧
    ("10.1.1.2/24" ∈ ["10.1.1.2/24", "10.1.1.3/24"] ∧
      (delAddress ["10.1.1.2/24", "10.1.1.3/24"] "10.1.1.2/24").warnings = [] ∧
      (delAddress ["10.1.1.2/24", "10.1.1.3/24"] "10.1.1.2/24").addresses.length
          + 1 = (["10.1.1.2/24", "10.1.1.3/24"] : List String).length ∧
      (delAddress ["10.1.1.2/24", "10.1.1.3/24"] "10.1.1.2/24").addresses.Sublist
        ["10.1.1.2/24", "10.1.1.3/24"] ∧
      (delAddress ["10.1.1.2/24", "10.1.1.3/24"] "10.1.1.2/24").addresses.count
          "10.1.1.2/24" + 1
          = (["10.1.1.2/24", "10.1.1.3/24"] : List String).count "10.1.1.2/24" ∧
      ∀ b, b ≠ "10.1.1.2/24" →
        (delAddress ["10.1.1.2/24", "10.1.1.3/24"] "10.1.1.2/24").addresses.count b
          = (["10.1.1.2/24", "10.1.1.3/24"] : List String).count b) :=
  ⟨⟨by decide,
    (del_address_best_effort ["10.1.1.3/24", "2001::412/122"] "10.0.0.1/24").1
      (by decide)⟩,
   ⟨by decide,
    (del_address_best_effort ["10.1.1.2/24", "10.1.1.3/24"] "10.1.1.2/24").2
      (by decide)⟩⟩

/-- **C7 counterexample.** The user-supplied test name `"looonginvalidname"`
has 17 characters, not 18 as the claim states; it is still longer than 15
characters and `createDevice` rejects it. -/
theorem looonginvalidname_not_18_chars :
    "looonginvalidname".length ≠ 18 ∧
    "looonginvalidname".length = 17 ∧
    createDevice "looonginvalidname" =
      Except.error (NameError.deviceNameTooLong "looonginvalidname" 15) :=
  ⟨by decide, by decide, rfl⟩

theorem strContains_limit_device (nm : String) :
    strContains "15" (deviceNameTooLongMsg nm) := by
  refine ⟨"Device name ".data ++ nm.data ++
    " is too long. Device names should not exceed ".data, " characters".data, ?_⟩
  simp only [deviceNameTooLongMsg, String.data_append, List.append_assoc]
  congr 1

theorem strContains_limit_auto (nm : String) :
    strContains "15" (autoNameTooLongMsg nm) := by
  refine ⟨"Auto-generated device name ".data ++ nm.data ++
    " is too long. The length of name should not exceed ".data,
    " characters.".data, ?_⟩
  simp only [autoNameTooLongMsg, String.data_append, List.append_assoc]
  congr 1

/-- **C7 (amended).** Supplying an interface name longer than 15 characters —
whether a user-supplied name such as the 17-character `"looonginvalidname"`,
an auto-derived veth name such as `"longname0-longname1-0"`, or an
auto-derived ingress-shaping (ifb) name such as `"ifb-node0-node1-0"` —
always raises a configuration error before any kernel call is attempted, and
the error message mentions the 15-character limit and the exact offending
(derived, for shaping) name. -/
theorem long_device_name_rejected (name nodeA nodeB ifname : String) (n : ℕ) :
    (15 < name.length →
      createDevice name = Except.error (NameError.deviceNameTooLong name 15)) ∧
    (15 < (vethDeviceName nodeA nodeB n).length →
      createVethPair nodeA nodeB n =
        Except.error (NameError.autoNameTooLong (vethDeviceName nodeA nodeB n) 15)) ∧
    (15 < (ifbDeviceName ifname).length →
      setAttributesIfb ifname =
        Except.error (NameError.deviceNameTooLong (ifbDeviceName ifname) 15)) ∧
    (∀ nm : String,
      strContains nm (deviceNameTooLongMsg nm) ∧
      strContains "15" (deviceNameTooLongMsg nm) ∧
      strContains nm (autoNameTooLongMsg nm) ∧
      strContains "15" (autoNameTooLongMsg nm)) ∧
    (createDevice "looonginvalidname" =
        Except.error (NameError.deviceNameTooLong "looonginvalidname" 15) ∧
      nameErrorMsg (NameError.deviceNameTooLong "looonginvalidname" 15) =
        "Device name looonginvalidname is too long. Device names should not exceed 15 characters") ∧
    (vethDeviceName "longname0" "longname1" 0 = "longname0-longname1-0" ∧
      createVethPair "longname0" "longname1" 0 =
        Except.error (NameError.autoNameTooLong "longname0-longname1-0" 15) ∧
      nameErrorMsg (NameError.autoNameTooLong "longname0-longname1-0" 15) =
        "Auto-generated device name longname0-longname1-0 is too long. The length of name should not exceed 15 characters.") ∧
    (ifbDeviceName "node0-node1-0" = "ifb-node0-node1-0" ∧
      setAttributesIfb "node0-node1-0" =
        Except.error (NameError.deviceNameTooLong "ifb-node0-node1-0" 15) ∧
      nameErrorMsg (NameError.deviceNameTooLong "ifb-node0-node1-0" 15) =
        "Device name ifb-node0-node1-0 is too long. Device names should not exceed 15 characters") := by
  refine ⟨?_, ?_, ?_, ?_, ?_, ?_, ?_⟩
  · intro h
    simp [createDevice, h]
  · intro h
    simp only [createVethPair, if_pos h]
  · intro h
    simp only [setAttributesIfb, if_pos h]
  · intro nm
    refine ⟨?_, strContains_limit_device nm, ?_, strContains_limit_auto nm⟩
    · exact strContains_of_append "Device name " nm
        " is too long. Device names should not exceed 15 characters"
    · exact strContains_of_append "Auto-generated device name " nm
        " is too long. The length of name should not exceed 15 characters."
  · exact ⟨rfl, by decide⟩
  · exact ⟨by decide, rfl, by decide⟩
  · exact ⟨by decide, rfl, by decide⟩

/-- Witness for C7 at the three concrete scenario names. -/
theorem long_device_name_rejected_witness :
    (15 < ("looonginvalidname" : String).length ∧
      createDevice "looonginvalidname" =
        Except.error (NameError.deviceNameTooLong "looonginvalidname" 15)) ∧
    (15 < (vethDeviceName "longname0" "longname1" 0).length ∧
      createVethPair "longname0" "longname1" 0 =
        Except.error
          (NameError.autoNameTooLong (vethDeviceName "longname0" "longname1" 0) 15)) ∧
    (15 < (ifbDeviceName "node0-node1-0").length ∧
      setAttributesIfb "node0-node1-0" =
        Except.error
          (NameError.deviceNameTooLong (ifbDeviceName "node0-node1-0") 15)) :=
  ⟨⟨by decide,
    (long_device_name_rejected "looonginvalidname" "" "" "" 0).1 (by decide)⟩,
   ⟨by decide,
    (long_device_name_rejected "" "longname0" "longname1" "" 0).2.1 (by decide)⟩,
   ⟨by decide,
    (long_device_name_rejected "" "" "" "node0-node1-0" 0).2.2.1 (by decide)⟩⟩

theorem zip_get_eq {α β : Type} (l₁ : List α) :
    ∀ (l₂ : List β) (i : ℕ) (h1 : i < l₁.length) (h2 : i < l₂.length)
      (h : i < (l₁.zip l₂).length),
      (l₁.zip l₂).get ⟨i, h⟩ = (l₁.get ⟨i, h1⟩, l₂.get ⟨i, h2⟩) := by
  induction l₁ with
  | nil => intro l₂ i h1; simp at h1
  | cons a l ih =>
      intro l₂
      cases l₂ with
      | nil => intro i h1 h2; simp at h2
      | cons b l₂ =>
          intro i h1 h2 h
          cases i with
          | zero => rfl
          | succ j =>
              exact ih l₂ j (by simpa using h1) (by simpa using h2)
                (by simpa using h)


/-- **C9.** `NetperfRunner.parse` is partial: it raises when the captured
output has no `remote port is <n>` line, raises when the remote-port line
exists but there are zero `NETPERF_INTERIM_RESULT` entries (`stats_dict` is
bound only inside the per-throughput loop), and succeeds only when at least
one interim result exists, in which case it deposits, under the key
`destination_ip:remote_port`, the records pairing the i-th timestamp with the
i-th throughput. -/
theorem netperf_parse_partiality (raw : List NetperfOutputLine) (ip : String) :
    (raw.filterMap remotePort? = [] →
      netperfParse raw ip =
        Except.error NetperfParseError.attributeErrorNoRemotePort) ∧
    (∀ p, (raw.filterMap remotePort?).head? = some p →
      raw.filterMap interimThroughput? = [] →
      netperfParse raw ip =
        Except.error NetperfParseError.nameErrorStatsDictUnbound) ∧
    (∀ key recs, netperfParse raw ip = Except.ok (key, recs) →
      raw.filterMap interimThroughput? ≠ [] ∧
      (∃ p, (raw.filterMap remotePort?).head? = some p ∧
        key = ip ++ ":" ++ p) ∧
      recs = (raw.filterMap endingTimestamp?).zip
        (raw.filterMap interimThroughput?) ∧
      recs.length = (raw.filterMap interimThroughput?).length ∧
      ∀ (i : ℕ) (h1 : i < (raw.filterMap endingTimestamp?).length)
        (h2 : i < (raw.filterMap interimThroughput?).length)
        (hr : i < recs.length),
        recs.get ⟨i, hr⟩ =
          ((raw.filterMap endingTimestamp?).get ⟨i, h1⟩,
           (raw.filterMap interimThroughput?).get ⟨i, h2⟩)) := by
  refine ⟨?_, ?_, ?_⟩
  · intro h
    simp [netperfParse, h]
  · intro p hp h0
    simp [netperfParse, hp, h0]
  · intro key recs hok
    cases hhd : (raw.filterMap remotePort?).head? with
    | none => rw [netperfParse, hhd] at hok; exact absurd hok (by simp)
    | some p =>
        simp only [netperfParse, hhd] at hok
        by_cases h0 : (raw.filterMap interimThroughput?).isEmpty = true
        · rw [if_pos h0] at hok
          exact absurd hok (by simp)
        · rw [if_neg h0] at hok
          by_cases hlt : (raw.filterMap endingTimestamp?).length <
              (raw.filterMap interimThroughput?).length
          · rw [if_pos hlt] at hok
            exact absurd hok (by simp)
          · rw [if_neg hlt] at hok
            simp only [Except.ok.injEq, Prod.mk.injEq] at hok
            obtain ⟨hkey, hrecs⟩ := hok
            have hne : raw.filterMap interimThroughput? ≠ [] := by
              intro hnil
              rw [hnil] at h0
              exact h0 rfl
            subst hrecs
            subst hkey
            refine ⟨hne, ⟨p, rfl, rfl⟩, rfl, ?_, ?_⟩
            · rw [List.length_zip]
              exact Nat.min_eq_right (Nat.le_of_not_lt hlt)
            · intro i h1 h2 hr
              exact zip_get_eq (raw.filterMap endingTimestamp?)
                (raw.filterMap interimThroughput?) i h1 h2 hr

/-- Witness for C9: a concrete captured output with a remote-port line and
two interim results parses successfully into the expected records. -/
theorem netperf_parse_partiality_witness :
    netperfParse netperfSampleOutput "10.0.0.2" =
      Except.ok ("10.0.0.2:40213", [("1.21", "94.03"), ("1.41", "95.00")]) ∧
    (netperfSampleOutput.filterMap interimThroughput? ≠ [] ∧
      (∃ p, (netperfSampleOutput.filterMap remotePort?).head? = some p ∧
        "10.0.0.2:40213" = "10.0.0.2" ++ ":" ++ p) ∧
      [("1.21", "94.03"), ("1.41", "95.00")] =
        (netperfSampleOutput.filterMap endingTimestamp?).zip
          (netperfSampleOutput.filterMap interimThroughput?) ∧
      ([("1.21", "94.03"), ("1.41", "95.00")] :
          List (String × String)).length =
        (netperfSampleOutput.filterMap interimThroughput?).length ∧
      ∀ (i : ℕ)
        (h1 : i < (netperfSampleOutput.filterMap endingTimestamp?).length)
        (h2 : i < (netperfSampleOutput.filterMap interimThroughput?).length)
        (hr : i < ([("1.21", "94.03"), ("1.41", "95.00")] :
          List (String × String)).length),
        ([("1.21", "94.03"), ("1.41", "95.00")] :
            List (String × String)).get ⟨i, hr⟩ =
          ((netperfSampleOutput.filterMap endingTimestamp?).get ⟨i, h1⟩,
           (netperfSampleOutput.filterMap interimThroughput?).get ⟨i, h2⟩)) :=
  ⟨by rfl,
   (netperf_parse_partiality netperfSampleOutput "10.0.0.2").2.2
     "10.0.0.2:40213" [("1.21", "94.03"), ("1.41", "95.00")] (by rfl)⟩

theorem mem_sInsert (l : List String) (x y : String) :
    x ∈ sInsert l y ↔ x ∈ l ∨ y = x := by
  by_cases h : y ∈ l
  · simp only [sInsert, if_pos h]
    constructor
    · exact Or.inl
    · rintro (hx | rfl)
      · exact hx
      · exact h
  · simp only [sInsert, if_neg h, List.mem_append, List.mem_singleton]
    constructor
    · rintro (hx | rfl)
      · exact Or.inl hx
      · exact Or.inr rfl
    · rintro (hx | rfl)
      · exact Or.inl hx
      · exact Or.inr rfl

theorem exists_mem_cons_iff {α : Type} (p : α → Prop) (a : α) (l : List α) :
    (∃ x ∈ a :: l, p x) ↔ p a ∨ ∃ x ∈ l, p x := by
  simp only [List.mem_cons, or_and_right, exists_or, exists_eq_left]

theorem processFlow_expEndT (deps : Deps) (st : ExpState) (f : Flow) :
    (processFlow deps st f).expEndT = max st.expEndT ↑f.stopT := by
  cases hp : f.protocol <;> cases hn : deps.netperf <;> cases hi : deps.iperf3 <;>
    simp [processFlow, setupTcpFlows, setupUdpFlows, hp, hn, hi]

theorem processFlow_pingSchedules (deps : Deps) (st : ExpState) (f : Flow) :
    (processFlow deps st f).pingSchedules =
      pingScheduleUpdate st.pingSchedules (f.srcNs, f.dstNs, f.dstAddr)
        f.startT f.stopT := by
  cases hp : f.protocol <;> cases hn : deps.netperf <;> cases hi : deps.iperf3 <;>
    simp [processFlow, setupTcpFlows, setupUdpFlows, hp, hn, hi]

theorem processFlow_ssSchedules (deps : Deps) (st : ExpState) (f : Flow) :
    (processFlow deps st f).ssSchedules =
      if f.protocol = Proto.tcp ∧ deps.netperf = true then
        ssScheduleUpdate st.ssSchedules (f.srcNs, f.dstNs, f.dstAddr)
          f.startT f.stopT
      else st.ssSchedules := by
  cases hp : f.protocol <;> cases hn : deps.netperf <;> cases hi : deps.iperf3 <;>
    simp [processFlow, setupTcpFlows, setupUdpFlows, hp, hn, hi]

theorem processFlow_ssFilters (deps : Deps) (st : ExpState) (f : Flow) :
    (processFlow deps st f).ssFilters =
      sInsert st.ssFilters
        (if f.protocol = Proto.tcp then netperfSsFilter else iperf3SsFilter) := by
  cases hp : f.protocol <;> cases hn : deps.netperf <;> cases hi : deps.iperf3 <;>
    simp [processFlow, setupTcpFlows, setupUdpFlows, hp, hn, hi]

theorem processFlow_ssRequired (deps : Deps) (st : ExpState) (f : Flow) :
    (processFlow deps st f).ssRequired =
      (st.ssRequired || decide (f.protocol = Proto.tcp)) := by
  cases hp : f.protocol <;> cases hn : deps.netperf <;> cases hi : deps.iperf3 <;>
    simp [processFlow, setupTcpFlows, setupUdpFlows, hp, hn, hi]

theorem processFlow_netperfDests (deps : Deps) (st : ExpState) (f : Flow) :
    (processFlow deps st f).netperfDests =
      if f.protocol = Proto.tcp then sInsert st.netperfDests f.dstNs
      else st.netperfDests := by
  cases hp : f.protocol <;> cases hn : deps.netperf <;> cases hi : deps.iperf3 <;>
    simp [processFlow, setupTcpFlows, setupUdpFlows, hp, hn, hi]

theorem processFlow_iperf3Dests (deps : Deps) (st : ExpState) (f : Flow) :
    (processFlow deps st f).iperf3Dests =
      if f.protocol = Proto.udp then sInsert st.iperf3Dests f.dstNs
      else st.iperf3Dests := by
  cases hp : f.protocol <;> cases hn : deps.netperf <;> cases hi : deps.iperf3 <;>
    simp [processFlow, setupTcpFlows, setupUdpFlows, hp, hn, hi]

theorem processFlow_coapDests (deps : Deps) (st : ExpState) (f : Flow) :
    (processFlow deps st f).coapDests = st.coapDests := by
  cases hp : f.protocol <;> cases hn : deps.netperf <;> cases hi : deps.iperf3 <;>
    simp [processFlow, setupTcpFlows, setupUdpFlows, hp, hn, hi]

theorem processFlow_showProgressBar (deps : Deps) (st : ExpState) (f : Flow) :
    (processFlow deps st f).showProgressBar = st.showProgressBar := by
  cases hp : f.protocol <;> cases hn : deps.netperf <;> cases hi : deps.iperf3 <;>
    simp [processFlow, setupTcpFlows, setupUdpFlows, hp, hn, hi]

theorem processCoapFlow_ssSchedules (deps : Deps) (st : ExpState)
    (cf : CoapFlow) : (processCoapFlow deps st cf).ssSchedules = st.ssSchedules := by
  cases hd : deps.coap <;> simp [processCoapFlow, hd]

theorem processCoapFlow_ssFilters (deps : Deps) (st : ExpState)
    (cf : CoapFlow) : (processCoapFlow deps st cf).ssFilters = st.ssFilters := by
  cases hd : deps.coap <;> simp [processCoapFlow, hd]

theorem processCoapFlow_ssRequired (deps : Deps) (st : ExpState)
    (cf : CoapFlow) : (processCoapFlow deps st cf).ssRequired = st.ssRequired := by
  cases hd : deps.coap <;> simp [processCoapFlow, hd]

theorem processCoapFlow_expEndT (deps : Deps) (st : ExpState)
    (cf : CoapFlow) : (processCoapFlow deps st cf).expEndT = st.expEndT := by
  cases hd : deps.coap <;> simp [processCoapFlow, hd]

theorem processCoapFlow_netperfDests (deps : Deps) (st : ExpState)
    (cf : CoapFlow) :
    (processCoapFlow deps st cf).netperfDests = st.netperfDests := by
  cases hd : deps.coap <;> simp [processCoapFlow, hd]

theorem processCoapFlow_iperf3Dests (deps : Deps) (st : ExpState)
    (cf : CoapFlow) :
    (processCoapFlow deps st cf).iperf3Dests = st.iperf3Dests := by
  cases hd : deps.coap <;> simp [processCoapFlow, hd]

theorem processCoapFlow_coapDests (deps : Deps) (st : ExpState)
    (cf : CoapFlow) :
    (processCoapFlow deps st cf).coapDests = sInsert st.coapDests cf.dstNs := by
  cases hd : deps.coap <;> simp [processCoapFlow, hd]

theorem coapFold_preserves (deps : Deps) (cfs : List CoapFlow) :
    ∀ st : ExpState,
      (cfs.foldl (processCoapFlow deps) st).ssSchedules = st.ssSchedules ∧
      (cfs.foldl (processCoapFlow deps) st).ssFilters = st.ssFilters ∧
      (cfs.foldl (processCoapFlow deps) st).ssRequired = st.ssRequired ∧
      (cfs.foldl (processCoapFlow deps) st).expEndT = st.expEndT ∧
      (cfs.foldl (processCoapFlow deps) st).netperfDests = st.netperfDests ∧
      (cfs.foldl (processCoapFlow deps) st).iperf3Dests = st.iperf3Dests := by
  induction cfs with
  | nil => intro st; exact ⟨rfl, rfl, rfl, rfl, rfl, rfl⟩
  | cons cf rest ih =>
      intro st
      rw [List.foldl_cons]
      refine ⟨?_, ?_, ?_, ?_, ?_, ?_⟩
      · rw [(ih _).1, processCoapFlow_ssSchedules]
      · rw [(ih _).2.1, processCoapFlow_ssFilters]
      · rw [(ih _).2.2.1, processCoapFlow_ssRequired]
      · rw [(ih _).2.2.2.1, processCoapFlow_expEndT]
      · rw [(ih _).2.2.2.2.1, processCoapFlow_netperfDests]
      · rw [(ih _).2.2.2.2.2, processCoapFlow_iperf3Dests]

theorem tcpContribs_cons (f : Flow) (rest : List Flow) :
    tcpContribs (f :: rest) =
      if f.protocol = Proto.tcp then
        ((f.srcNs, f.dstNs, f.dstAddr), f.startT, f.stopT) :: tcpContribs rest
      else tcpContribs rest := by
  cases hp : f.protocol <;> simp [tcpContribs, List.filter_cons, hp]

theorem flowFold_ssSchedules (deps : Deps) (flows : List Flow) :
    ∀ st : ExpState,
      (flows.foldl (processFlow deps) st).ssSchedules =
        if deps.netperf = true then
          (tcpContribs flows).foldl
            (fun m c => ssScheduleUpdate m c.1 c.2.1 c.2.2) st.ssSchedules
        else st.ssSchedules := by
  induction flows with
  | nil => intro st; cases hn : deps.netperf <;> simp [tcpContribs]
  | cons f rest ih =>
      intro st
      rw [List.foldl_cons, ih]
      cases hn : deps.netperf <;> cases hp : f.protocol <;>
        simp [processFlow_ssSchedules, tcpContribs_cons, hn, hp]

theorem flowFold_expEndT (deps : Deps) (flows : List Flow) :
    ∀ st : ExpState,
      (flows.foldl (processFlow deps) st).expEndT =
        flows.foldl (fun a f => max a ↑f.stopT) st.expEndT := by
  induction flows with
  | nil => intro st; rfl
  | cons f rest ih =>
      intro st
      rw [List.foldl_cons, List.foldl_cons, ih, processFlow_expEndT]

theorem flowFold_ssRequired (deps : Deps) (flows : List Flow) :
    ∀ st : ExpState,
      (flows.foldl (processFlow deps) st).ssRequired =
        (st.ssRequired || flows.any (fun f => decide (f.protocol = Proto.tcp))) := by
  induction flows with
  | nil => intro st; simp
  | cons f rest ih =>
      intro st
      rw [List.foldl_cons, ih, processFlow_ssRequired, List.any_cons,
        Bool.or_assoc]

theorem mem_ite_sInsert (c : Prop) [Decidable c] (l : List String)
    (x d : String) :
    (d ∈ if c then sInsert l x else l) ↔ (d ∈ l ∨ (c ∧ x = d)) := by
  by_cases h : c
  · simp [h, mem_sInsert]
  · simp [h]

theorem proto_eq_udp_of_ne_tcp {p : Proto} (h : ¬p = Proto.tcp) :
    p = Proto.udp := by
  cases p
  · exact absurd rfl h
  · rfl

theorem flowFold_ssFilters_mem (deps : Deps) (flows : List Flow) :
    ∀ (st : ExpState) (c : String),
      c ∈ (flows.foldl (processFlow deps) st).ssFilters ↔
        c ∈ st.ssFilters ∨
        (c = netperfSsFilter ∧ ∃ f ∈ flows, f.protocol = Proto.tcp) ∨
        (c = iperf3SsFilter ∧ ∃ f ∈ flows, f.protocol = Proto.udp) := by
  induction flows with
  | nil => intro st c; simp
  | cons f rest ih =>
      intro st c
      rw [List.foldl_cons, ih, processFlow_ssFilters, mem_sInsert, ite_eq_iff]
      constructor
      · rintro ((hc | ⟨hp, he⟩ | ⟨hp, he⟩) | ⟨he, g, hg, hgp⟩ | ⟨he, g, hg, hgp⟩)
        · exact Or.inl hc
        · exact Or.inr (Or.inl ⟨he.symm, f, List.mem_cons_self .., hp⟩)
        · exact Or.inr (Or.inr ⟨he.symm, f, List.mem_cons_self ..,
            proto_eq_udp_of_ne_tcp hp⟩)
        · exact Or.inr (Or.inl ⟨he, g, List.mem_cons_of_mem _ hg, hgp⟩)
        · exact Or.inr (Or.inr ⟨he, g, List.mem_cons_of_mem _ hg, hgp⟩)
      · rintro (hc | ⟨he, g, hg, hgp⟩ | ⟨he, g, hg, hgp⟩)
        · exact Or.inl (Or.inl hc)
        · rcases List.mem_cons.1 hg with rfl | hg2
          · exact Or.inl (Or.inr (Or.inl ⟨hgp, he.symm⟩))
          · exact Or.inr (Or.inl ⟨he, g, hg2, hgp⟩)
        · rcases List.mem_cons.1 hg with rfl | hg2
          · refine Or.inl (Or.inr (Or.inr ⟨?_, he.symm⟩))
            rw [hgp]
            intro hcontra
            exact Proto.noConfusion hcontra
          · exact Or.inr (Or.inr ⟨he, g, hg2, hgp⟩)

theorem flowFold_netperfDests_mem (deps : Deps) (flows : List Flow) :
    ∀ (st : ExpState) (d : String),
      d ∈ (flows.foldl (processFlow deps) st).netperfDests ↔
        d ∈ st.netperfDests ∨
        ∃ f ∈ flows, f.protocol = Proto.tcp ∧ f.dstNs = d := by
  induction flows with
  | nil => intro st d; simp
  | cons f rest ih =>
      intro st d
      rw [List.foldl_cons, ih, processFlow_netperfDests, mem_ite_sInsert]
      constructor
      · rintro ((h | ⟨hp, hd⟩) | ⟨g, hg, hgp, hgd⟩)
        · exact Or.inl h
        · exact Or.inr ⟨f, List.mem_cons_self .., hp, hd⟩
        · exact Or.inr ⟨g, List.mem_cons_of_mem _ hg, hgp, hgd⟩
      · rintro (h | ⟨g, hg, hgp, hgd⟩)
        · exact Or.inl (Or.inl h)
        · rcases List.mem_cons.1 hg with rfl | hg2
          · exact Or.inl (Or.inr ⟨hgp, hgd⟩)
          · exact Or.inr ⟨g, hg2, hgp, hgd⟩

theorem flowFold_iperf3Dests_mem (deps : Deps) (flows : List Flow) :
    ∀ (st : ExpState) (d : String),
      d ∈ (flows.foldl (processFlow deps) st).iperf3Dests ↔
        d ∈ st.iperf3Dests ∨
        ∃ f ∈ flows, f.protocol = Proto.udp ∧ f.dstNs = d := by
  induction flows with
  | nil => intro st d; simp
  | cons f rest ih =>
      intro st d
      rw [List.foldl_cons, ih, processFlow_iperf3Dests, mem_ite_sInsert]
      constructor
      · rintro ((h | ⟨hp, hd⟩) | ⟨g, hg, hgp, hgd⟩)
        · exact Or.inl h
        · exact Or.inr ⟨f, List.mem_cons_self .., hp, hd⟩
        · exact Or.inr ⟨g, List.mem_cons_of_mem _ hg, hgp, hgd⟩
      · rintro (h | ⟨g, hg, hgp, hgd⟩)
        · exact Or.inl (Or.inl h)
        · rcases List.mem_cons.1 hg with rfl | hg2
          · exact Or.inl (Or.inr ⟨hgp, hgd⟩)
          · exact Or.inr ⟨g, hg2, hgp, hgd⟩

theorem flowFold_coapDests (deps : Deps) (flows : List Flow) :
    ∀ st : ExpState,
      (flows.foldl (processFlow deps) st).coapDests = st.coapDests := by
  induction flows with
  | nil => intro st; rfl
  | cons f rest ih =>
      intro st
      rw [List.foldl_cons, ih, processFlow_coapDests]

theorem coapFold_coapDests_mem (deps : Deps) (cfs : List CoapFlow) :
    ∀ (st : ExpState) (d : String),
      d ∈ (cfs.foldl (processCoapFlow deps) st).coapDests ↔
        d ∈ st.coapDests ∨ ∃ cf ∈ cfs, cf.dstNs = d := by
  induction cfs with
  | nil => intro st d; simp
  | cons cf rest ih =>
      intro st d
      rw [List.foldl_cons, ih, processCoapFlow_coapDests, mem_sInsert]
      constructor
      · rintro ((h | h) | ⟨g, hg, hgd⟩)
        · exact Or.inl h
        · exact Or.inr ⟨cf, List.mem_cons_self .., h⟩
        · exact Or.inr ⟨g, List.mem_cons_of_mem _ hg, hgd⟩
      · rintro (h | ⟨g, hg, hgd⟩)
        · exact Or.inl (Or.inl h)
        · rcases List.mem_cons.1 hg with rfl | hg2
          · exact Or.inl (Or.inr hgd)
          · exact Or.inr ⟨g, hg2, hgd⟩

theorem foldl_max_bound (xs : List ℤ) :
    ∀ a : WithBot ℤ,
      a ≤ xs.foldl (fun b x => max b ↑x) a ∧
      ∀ x ∈ xs, (↑x : WithBot ℤ) ≤ xs.foldl (fun b x => max b ↑x) a := by
  induction xs with
  | nil => intro a; exact ⟨le_refl a, by simp⟩
  | cons x rest ih =>
      intro a
      rw [List.foldl_cons]
      obtain ⟨h1, h2⟩ := ih (max a ↑x)
      refine ⟨le_trans (le_max_left a ↑x) h1, ?_⟩
      intro y hy
      rcases List.mem_cons.1 hy with rfl | hy2
      · exact le_trans (le_max_right a ↑y) h1
      · exact h2 y hy2

theorem foldl_max_attained (xs : List ℤ) :
    ∀ a : WithBot ℤ,
      xs.foldl (fun b x => max b ↑x) a = a ∨
      ∃ m ∈ xs, xs.foldl (fun b x => max b ↑x) a = ↑m := by
  induction xs with
  | nil => intro a; exact Or.inl rfl
  | cons x rest ih =>
      intro a
      rw [List.foldl_cons]
      rcases ih (max a ↑x) with h | ⟨m, hm, he⟩
      · rcases max_choice a ↑x with hc | hc
        · exact Or.inl (h.trans hc)
        · exact Or.inr ⟨x, List.mem_cons_self .., h.trans hc⟩
      · exact Or.inr ⟨m, List.mem_cons_of_mem _ hm, he⟩

theorem exp_end_exists_max (flows : List Flow) (h : flows ≠ []) :
    ∃ m : ℤ,
      flows.foldl (fun a f => max a ↑f.stopT) (⊥ : WithBot ℤ) = ↑m ∧
      m ∈ flows.map Flow.stopT ∧ ∀ y ∈ flows.map Flow.stopT, y ≤ m := by
  have hmap : flows.foldl (fun a f => max a ↑f.stopT) (⊥ : WithBot ℤ) =
      (flows.map Flow.stopT).foldl (fun b x => max b ↑x) ⊥ := by
    rw [List.foldl_map]
  rcases foldl_max_attained (flows.map Flow.stopT) ⊥ with hb | ⟨m, hm, he⟩
  · exfalso
    obtain ⟨f, hf⟩ := List.exists_mem_of_ne_nil flows h
    have hle := (foldl_max_bound (flows.map Flow.stopT) ⊥).2 f.stopT
      (List.mem_map.2 ⟨f, hf, rfl⟩)
    rw [hb] at hle
    exact WithBot.not_coe_le_bot f.stopT hle
  · refine ⟨m, by rw [hmap, he], hm, ?_⟩
    intro y hy
    have hle := (foldl_max_bound (flows.map Flow.stopT) ⊥).2 y hy
    rw [he] at hle
    exact WithBot.coe_le_coe.1 hle

/-- **C4.** The overall experiment stop time computed by `run_experiment`
equals the maximum stop time across all Flows of the flow list, and this
value is the end time of every qdisc-sampling (tc) Runner and the total
duration of the progress display (when the progress bar is shown). -/
theorem exp_end_is_max_stop (deps : Deps) (spb : Bool) (flows : List Flow)
    (coapFlows : List CoapFlow) (qdiscStats : List QdiscStat)
    (h : flows ≠ []) :
    ∃ m : ℤ,
      (schedulerState deps spb flows coapFlows).expEndT = ↑m ∧
      m ∈ flows.map Flow.stopT ∧
      (∀ y ∈ flows.map Flow.stopT, y ≤ m) ∧
      (∀ r ∈ tcRunnersOf deps qdiscStats
          (schedulerState deps spb flows coapFlows).expEndT, r.expEnd = ↑m) ∧
      ((schedulerState deps spb flows coapFlows).showProgressBar = true →
        flowWorkersProgress (schedulerState deps spb flows coapFlows) =
          some ↑m) := by
  have hend : (schedulerState deps spb flows coapFlows).expEndT =
      flows.foldl (fun a f => max a ↑f.stopT) ⊥ := by
    rw [schedulerState, (coapFold_preserves deps coapFlows _).2.2.2.1,
      flowFold_expEndT]
    rfl
  obtain ⟨m, hm, hmem, hub⟩ := exp_end_exists_max flows h
  refine ⟨m, by rw [hend, hm], hmem, hub, ?_, ?_⟩
  · intro r hr
    by_cases hc : deps.tc = true ∧ 0 < qdiscStats.length
    · rw [tcRunnersOf, if_pos hc] at hr
      obtain ⟨q, _, rfl⟩ := List.mem_map.1 hr
      show (schedulerState deps spb flows coapFlows).expEndT = ↑m
      rw [hend, hm]
    · rw [tcRunnersOf, if_neg hc] at hr
      exact absurd hr (List.not_mem_nil r)
  · intro hspb
    rw [flowWorkersProgress, if_pos hspb, hend, hm]

/-- Witness for C4 at the three-flow scenario. -/
theorem exp_end_is_max_stop_witness :
    scenarioFlows ≠ [] ∧
    ∃ m : ℤ,
      (schedulerState allDeps true scenarioFlows []).expEndT = ↑m ∧
      m ∈ scenarioFlows.map Flow.stopT ∧
      (∀ y ∈ scenarioFlows.map Flow.stopT, y ≤ m) ∧
      (∀ r ∈ tcRunnersOf allDeps
          [({ nsId := "h1", intId := "h1-h2-0", qdisc := "codel" } : QdiscStat)]
          (schedulerState allDeps true scenarioFlows []).expEndT,
        r.expEnd = ↑m) ∧
      ((schedulerState allDeps true scenarioFlows []).showProgressBar = true →
        flowWorkersProgress (schedulerState allDeps true scenarioFlows []) =
          some ↑m) :=
  ⟨by decide,
   exp_end_is_max_stop allDeps true scenarioFlows []
     [({ nsId := "h1", intId := "h1-h2-0", qdisc := "codel" } : QdiscStat)]
     (by decide)⟩

theorem nodup_append_singleton {α : Type} {l : List α} {a : α}
    (hl : l.Nodup) (ha : a ∉ l) : (l ++ [a]).Nodup := by
  induction l with
  | nil => simp
  | cons b rest ih =>
      simp only [List.cons_append, List.nodup_cons] at hl ⊢
      refine ⟨?_, ih hl.2 (fun hh => ha (List.mem_cons_of_mem _ hh))⟩
      intro hb
      rcases List.mem_append.1 hb with hb | hb
      · exact hl.1 hb
      · rw [List.mem_singleton] at hb
        rw [hb] at ha
        exact ha (List.mem_cons_self ..)

theorem mem_append_start_self {starts : List (Tool × String)} {t : Tool}
    {dst d : String} :
    ((t, d) ∈ starts ++ [(t, dst)]) ↔ (t, d) ∈ starts ∨ d = dst := by
  constructor
  · intro h
    rcases List.mem_append.1 h with h | h
    · exact Or.inl h
    · rw [List.mem_singleton] at h
      injection h with h1 h2
      exact Or.inr h2
  · rintro (h | rfl)
    · exact List.mem_append.2 (Or.inl h)
    · exact List.mem_append.2 (Or.inr (List.mem_singleton.2 rfl))

theorem mem_append_start_other {starts : List (Tool × String)} {t t' : Tool}
    {dst d : String} (hne : t' ≠ t) :
    ((t', d) ∈ starts ++ [(t, dst)]) ↔ (t', d) ∈ starts := by
  constructor
  · intro h
    rcases List.mem_append.1 h with h | h
    · exact h
    · rw [List.mem_singleton] at h
      injection h with h1 h2
      exact absurd h1 hne
  · intro h
    exact List.mem_append.2 (Or.inl h)

theorem mem_ite_append_other (starts : List (Tool × String)) (c : Prop)
    [Decidable c] (t t' : Tool) (dst d : String) (hne : t' ≠ t) :
    ((t', d) ∈ (if c then starts ++ [(t, dst)] else starts)) ↔
      (t', d) ∈ starts := by
  by_cases hc : c
  · rw [if_pos hc, mem_append_start_other hne]
  · rw [if_neg hc]

theorem server_iff_step (starts : List (Tool × String)) (dests : List String)
    (t : Tool) (dst : String) (dep : Bool)
    (hiff : ∀ d, ((t, d) ∈ starts ↔ dep = true ∧ d ∈ dests)) (d : String) :
    ((t, d) ∈ (if dep = true ∧ dst ∉ dests
        then starts ++ [(t, dst)] else starts)) ↔
      (dep = true ∧ d ∈ sInsert dests dst) := by
  by_cases hc : dep = true ∧ dst ∉ dests
  · rw [if_pos hc, mem_append_start_self, hiff d, mem_sInsert]
    obtain ⟨hdep, hnm⟩ := hc
    constructor
    · rintro (⟨h1, h2⟩ | rfl)
      · exact ⟨h1, Or.inl h2⟩
      · exact ⟨hdep, Or.inr rfl⟩
    · rintro ⟨h1, h2 | rfl⟩
      · exact Or.inl ⟨h1, h2⟩
      · exact Or.inr rfl
  · rw [if_neg hc, hiff d, mem_sInsert]
    constructor
    · rintro ⟨h1, h2⟩
      exact ⟨h1, Or.inl h2⟩
    · rintro ⟨h1, h2 | rfl⟩
      · exact ⟨h1, h2⟩
      · refine ⟨h1, ?_⟩
        by_contra hnm
        exact hc ⟨h1, hnm⟩

theorem nodup_ite_append (starts : List (Tool × String)) (dests : List String)
    (t : Tool) (dst : String) (dep : Bool) (hnd : starts.Nodup)
    (hiff : ∀ d, ((t, d) ∈ starts ↔ dep = true ∧ d ∈ dests)) :
    (if dep = true ∧ dst ∉ dests
      then starts ++ [(t, dst)] else starts).Nodup := by
  by_cases hc : dep = true ∧ dst ∉ dests
  · rw [if_pos hc]
    refine nodup_append_singleton hnd ?_
    intro hmem
    exact hc.2 ((hiff dst).1 hmem).2
  · rw [if_neg hc]
    exact hnd

theorem processFlow_serverStarts_tcp (deps : Deps) (st : ExpState) (f : Flow)
    (hp : f.protocol = Proto.tcp) :
    (processFlow deps st f).serverStarts =
      if deps.netperf = true ∧ f.dstNs ∉ st.netperfDests
      then st.serverStarts ++ [(Tool.netperf, f.dstNs)]
      else st.serverStarts := by
  cases hn : deps.netperf <;> by_cases hm : f.dstNs ∈ st.netperfDests <;>
    simp [processFlow, setupTcpFlows, hp, hn, hm]

theorem processFlow_serverStarts_udp (deps : Deps) (st : ExpState) (f : Flow)
    (hp : f.protocol = Proto.udp) :
    (processFlow deps st f).serverStarts =
      if deps.iperf3 = true ∧ f.dstNs ∉ st.iperf3Dests
      then st.serverStarts ++ [(Tool.iperf3, f.dstNs)]
      else st.serverStarts := by
  cases hi : deps.iperf3 <;> by_cases hm : f.dstNs ∈ st.iperf3Dests <;>
    simp [processFlow, setupUdpFlows, hp, hi, hm]

theorem processCoapFlow_serverStarts (deps : Deps) (st : ExpState)
    (cf : CoapFlow) :
    (processCoapFlow deps st cf).serverStarts =
      if deps.coap = true ∧ cf.dstNs ∉ st.coapDests
      then st.serverStarts ++ [(Tool.coap, cf.dstNs)]
      else st.serverStarts := by
  cases hd : deps.coap <;> by_cases hm : cf.dstNs ∈ st.coapDests <;>
    simp [processCoapFlow, hd, hm]

theorem serverInv_processFlow (deps : Deps) (st : ExpState) (f : Flow)
    (h : ServerInv deps st) : ServerInv deps (processFlow deps st f) := by
  obtain ⟨hnd, hnp, hip, hco, hss, htc, hpg⟩ := h
  cases hp : f.protocol
  case tcp =>
    have hS := processFlow_serverStarts_tcp deps st f hp
    have hN : (processFlow deps st f).netperfDests =
        sInsert st.netperfDests f.dstNs := by
      rw [processFlow_netperfDests, if_pos hp]
    have hI : (processFlow deps st f).iperf3Dests = st.iperf3Dests := by
      rw [processFlow_iperf3Dests,
        if_neg (by rw [hp]; intro hc; exact Proto.noConfusion hc)]
    have hC := processFlow_coapDests deps st f
    refine ⟨?_, ?_, ?_, ?_, ?_, ?_, ?_⟩
    · rw [hS]
      exact nodup_ite_append _ _ _ _ _ hnd hnp
    · intro d
      rw [hS, hN]
      exact server_iff_step _ _ _ _ _ hnp d
    · intro d
      rw [hS, hI,
        mem_ite_append_other _ _ _ _ _ _ (fun hc => Tool.noConfusion hc)]
      exact hip d
    · intro d
      rw [hS, hC,
        mem_ite_append_other _ _ _ _ _ _ (fun hc => Tool.noConfusion hc)]
      exact hco d
    · intro d
      rw [hS,
        mem_ite_append_other _ _ _ _ _ _ (fun hc => Tool.noConfusion hc)]
      exact hss d
    · intro d
      rw [hS,
        mem_ite_append_other _ _ _ _ _ _ (fun hc => Tool.noConfusion hc)]
      exact htc d
    · intro d
      rw [hS,
        mem_ite_append_other _ _ _ _ _ _ (fun hc => Tool.noConfusion hc)]
      exact hpg d
  case udp =>
    have hS := processFlow_serverStarts_udp deps st f hp
    have hN : (processFlow deps st f).netperfDests = st.netperfDests := by
      rw [processFlow_netperfDests,
        if_neg (by rw [hp]; intro hc; exact Proto.noConfusion hc)]
    have hI : (processFlow deps st f).iperf3Dests =
        sInsert st.iperf3Dests f.dstNs := by
      rw [processFlow_iperf3Dests, if_pos hp]
    have hC := processFlow_coapDests deps st f
    refine ⟨?_, ?_, ?_, ?_, ?_, ?_, ?_⟩
    · rw [hS]
      exact nodup_ite_append _ _ _ _ _ hnd hip
    · intro d
      rw [hS, hN,
        mem_ite_append_other _ _ _ _ _ _ (fun hc => Tool.noConfusion hc)]
      exact hnp d
    · intro d
      rw [hS, hI]
      exact server_iff_step _ _ _ _ _ hip d
    · intro d
      rw [hS, hC,
        mem_ite_append_other _ _ _ _ _ _ (fun hc => Tool.noConfusion hc)]
      exact hco d
    · intro d
      rw [hS,
        mem_ite_append_other _ _ _ _ _ _ (fun hc => Tool.noConfusion hc)]
      exact hss d
    · intro d
      rw [hS,
        mem_ite_append_other _ _ _ _ _ _ (fun hc => Tool.noConfusion hc)]
      exact htc d
    · intro d
      rw [hS,
        mem_ite_append_other _ _ _ _ _ _ (fun hc => Tool.noConfusion hc)]
      exact hpg d

theorem serverInv_processCoapFlow (deps : Deps) (st : ExpState) (cf : CoapFlow)
    (h : ServerInv deps st) : ServerInv deps (processCoapFlow deps st cf) := by
  obtain ⟨hnd, hnp, hip, hco, hss, htc, hpg⟩ := h
  have hS := processCoapFlow_serverStarts deps st cf
  have hN := processCoapFlow_netperfDests deps st cf
  have hI := processCoapFlow_iperf3Dests deps st cf
  have hC := processCoapFlow_coapDests deps st cf
  refine ⟨?_, ?_, ?_, ?_, ?_, ?_, ?_⟩
  · rw [hS]
    exact nodup_ite_append _ _ _ _ _ hnd hco
  · intro d
    rw [hS, hN,
      mem_ite_append_other _ _ _ _ _ _ (fun hc => Tool.noConfusion hc)]
    exact hnp d
  · intro d
    rw [hS, hI,
      mem_ite_append_other _ _ _ _ _ _ (fun hc => Tool.noConfusion hc)]
    exact hip d
  · intro d
    rw [hS, hC]
    exact server_iff_step _ _ _ _ _ hco d
  · intro d
    rw [hS,
      mem_ite_append_other _ _ _ _ _ _ (fun hc => Tool.noConfusion hc)]
    exact hss d
  · intro d
    rw [hS,
      mem_ite_append_other _ _ _ _ _ _ (fun hc => Tool.noConfusion hc)]
    exact htc d
  · intro d
    rw [hS,
      mem_ite_append_other _ _ _ _ _ _ (fun hc => Tool.noConfusion hc)]
    exact hpg d

theorem serverInv_init (deps : Deps) (spb : Bool) :
    ServerInv deps (initState spb) := by
  refine ⟨List.nodup_nil, ?_, ?_, ?_, ?_, ?_, ?_⟩ <;> intro d <;> simp [initState]

theorem serverInv_flowFold (deps : Deps) (flows : List Flow) :
    ∀ st : ExpState, ServerInv deps st →
      ServerInv deps (flows.foldl (processFlow deps) st) := by
  induction flows with
  | nil => intro st h; exact h
  | cons f rest ih =>
      intro st h
      rw [List.foldl_cons]
      exact ih _ (serverInv_processFlow deps st f h)

theorem serverInv_coapFold (deps : Deps) (cfs : List CoapFlow) :
    ∀ st : ExpState, ServerInv deps st →
      ServerInv deps (cfs.foldl (processCoapFlow deps) st) := by
  induction cfs with
  | nil => intro st h; exact h
  | cons cf rest ih =>
      intro st h
      rw [List.foldl_cons]
      exact ih _ (serverInv_processCoapFlow deps st cf h)

theorem serverInv_scheduler (deps : Deps) (spb : Bool) (flows : List Flow)
    (coapFlows : List CoapFlow) :
    ServerInv deps (schedulerState deps spb flows coapFlows) :=
  serverInv_coapFold deps coapFlows _
    (serverInv_flowFold deps flows _ (serverInv_init deps spb))

/-- **C2.** Over any flow list, at most one measurement-server start call is
issued per `(tool, destination namespace)` pair (the list of server-start
calls has no duplicates); moreover, when the tool is installed, a netperf
server start is issued for a destination exactly when some TCP Flow targets
it (so the first such Flow starts it and later ones start none), and likewise
for the iperf3 server over UDP Flows and the CoAP server over CoAP flows. -/
theorem server_start_at_most_once (deps : Deps) (spb : Bool)
    (flows : List Flow) (coapFlows : List CoapFlow) :
    (schedulerState deps spb flows coapFlows).serverStarts.Nodup ∧
    (∀ d, ((Tool.netperf, d) ∈
        (schedulerState deps spb flows coapFlows).serverStarts ↔
      deps.netperf = true ∧
        ∃ f ∈ flows, f.protocol = Proto.tcp ∧ f.dstNs = d)) ∧
    (∀ d, ((Tool.iperf3, d) ∈
        (schedulerState deps spb flows coapFlows).serverStarts ↔
      deps.iperf3 = true ∧
        ∃ f ∈ flows, f.protocol = Proto.udp ∧ f.dstNs = d)) ∧
    (∀ d, ((Tool.coap, d) ∈
        (schedulerState deps spb flows coapFlows).serverStarts ↔
      deps.coap = true ∧ ∃ cf ∈ coapFlows, cf.dstNs = d)) := by
  obtain ⟨hnd, hnp, hip, hco, _, _, _⟩ :=
    serverInv_scheduler deps spb flows coapFlows
  refine ⟨hnd, ?_, ?_, ?_⟩
  · intro d
    rw [hnp d]
    have hdests : d ∈ (schedulerState deps spb flows coapFlows).netperfDests ↔
        ∃ f ∈ flows, f.protocol = Proto.tcp ∧ f.dstNs = d := by
      rw [schedulerState, (coapFold_preserves deps coapFlows _).2.2.2.2.1,
        flowFold_netperfDests_mem]
      simp [initState]
    rw [hdests]
  · intro d
    rw [hip d]
    have hdests : d ∈ (schedulerState deps spb flows coapFlows).iperf3Dests ↔
        ∃ f ∈ flows, f.protocol = Proto.udp ∧ f.dstNs = d := by
      rw [schedulerState, (coapFold_preserves deps coapFlows _).2.2.2.2.2,
        flowFold_iperf3Dests_mem]
      simp [initState]
    rw [hdests]
  · intro d
    rw [hco d]
    have hdests : d ∈ (schedulerState deps spb flows coapFlows).coapDests ↔
        ∃ cf ∈ coapFlows, cf.dstNs = d := by
      rw [schedulerState, coapFold_coapDests_mem, flowFold_coapDests]
      simp [initState]
    rw [hdests]

theorem sAndJoin_foldl_data (xs : List String) :
    ∀ acc : String, ∃ post : List Char,
      (xs.foldl (fun acc c => acc ++ " and " ++ c) acc).data =
        acc.data ++ post := by
  induction xs with
  | nil => intro acc; exact ⟨[], (List.append_nil _).symm⟩
  | cons c rest ih =>
      intro acc
      rw [List.foldl_cons]
      obtain ⟨post, hpost⟩ := ih (acc ++ " and " ++ c)
      refine ⟨" and ".data ++ c.data ++ post, ?_⟩
      rw [hpost, String.data_append, String.data_append]
      simp [List.append_assoc]

theorem strContains_sAndJoin_foldl (xs : List String) (c : String) :
    ∀ acc : String, c ∈ xs →
      strContains c (xs.foldl (fun a s => a ++ " and " ++ s) acc) := by
  induction xs with
  | nil => intro acc h; simp at h
  | cons x rest ih =>
      intro acc h
      rcases List.mem_cons.1 h with rfl | h2
      · rw [List.foldl_cons]
        obtain ⟨post, hpost⟩ := sAndJoin_foldl_data rest (acc ++ " and " ++ c)
        refine ⟨acc.data ++ " and ".data, post, ?_⟩
        rw [hpost, String.data_append, String.data_append]
      · rw [List.foldl_cons]
        exact ih _ h2

theorem strContains_sAndJoin {l : List String} {c : String} (h : c ∈ l) :
    strContains c (sAndJoin l) := by
  cases l with
  | nil => simp at h
  | cons x xs =>
      rcases List.mem_cons.1 h with rfl | h2
      · obtain ⟨post, hpost⟩ := sAndJoin_foldl_data xs c
        exact ⟨[], post, by rw [sAndJoin, hpost]; simp⟩
      · exact strContains_sAndJoin_foldl xs c x h2

theorem ssRunnersOf_filter (deps : Deps) (st : ExpState) :
    ∀ r ∈ ssRunnersOf deps st, r.ssFilter = sAndJoin st.ssFilters := by
  intro r hr
  rw [ssRunnersOf] at hr
  by_cases h1 : st.ssRequired = true
  · rw [if_pos h1] at hr
    by_cases h2 : deps.ss = true
    · rw [if_pos h2] at hr
      obtain ⟨kv, _, rfl⟩ := List.mem_map.1 hr
      rfl
    · rw [if_neg h2] at hr
      exact absurd hr (List.not_mem_nil r)
  · rw [if_neg h1] at hr
    exact absurd hr (List.not_mem_nil r)

/-- **C6.** For every experiment with at least one TCP Flow, the accumulated
`ss_filters` set contains the netperf control-port exclusion clause
`sport != 12865 and dport != 12865`; if the experiment also has a UDP Flow it
additionally contains the iperf3 clause for port 5201; the set holds nothing
but these per-tool exclusion clauses; and every socket-stats Runner receives
the `" and "`-conjunction of the accumulated clauses as its filter, which
therefore contains each accumulated clause as a substring. -/
theorem ss_filter_excludes_control_ports (deps : Deps) (spb : Bool)
    (flows : List Flow) (coapFlows : List CoapFlow)
    (htcp : ∃ f ∈ flows, f.protocol = Proto.tcp) :
    netperfSsFilter ∈ (schedulerState deps spb flows coapFlows).ssFilters ∧
    ((∃ f ∈ flows, f.protocol = Proto.udp) →
      iperf3SsFilter ∈ (schedulerState deps spb flows coapFlows).ssFilters) ∧
    (∀ c ∈ (schedulerState deps spb flows coapFlows).ssFilters,
      c = netperfSsFilter ∨ c = iperf3SsFilter) ∧
    (∀ r ∈ ssRunnersOf deps (schedulerState deps spb flows coapFlows),
      r.ssFilter =
        sAndJoin (schedulerState deps spb flows coapFlows).ssFilters ∧
      strContains netperfSsFilter r.ssFilter ∧
      ((∃ f ∈ flows, f.protocol = Proto.udp) →
        strContains iperf3SsFilter r.ssFilter)) := by
  have hmem : ∀ c : String,
      c ∈ (schedulerState deps spb flows coapFlows).ssFilters ↔
        (c = netperfSsFilter ∧ ∃ f ∈ flows, f.protocol = Proto.tcp) ∨
        (c = iperf3SsFilter ∧ ∃ f ∈ flows, f.protocol = Proto.udp) := by
    intro c
    rw [schedulerState, (coapFold_preserves deps coapFlows _).2.1,
      flowFold_ssFilters_mem]
    simp [initState]
  have hnpmem : netperfSsFilter ∈
      (schedulerState deps spb flows coapFlows).ssFilters :=
    (hmem _).2 (Or.inl ⟨rfl, htcp⟩)
  refine ⟨hnpmem, ?_, ?_, ?_⟩
  · intro hudp
    exact (hmem _).2 (Or.inr ⟨rfl, hudp⟩)
  · intro c hc
    rcases (hmem c).1 hc with ⟨he, _⟩ | ⟨he, _⟩
    · exact Or.inl he
    · exact Or.inr he
  · intro r hr
    have hf := ssRunnersOf_filter deps _ r hr
    refine ⟨hf, ?_, ?_⟩
    · rw [hf]
      exact strContains_sAndJoin hnpmem
    · intro hudp
      rw [hf]
      exact strContains_sAndJoin ((hmem _).2 (Or.inr ⟨rfl, hudp⟩))

/-- Witness for C6: the three-TCP-flow scenario plus one UDP flow. -/
theorem ss_filter_excludes_control_ports_witness :
    (∃ f ∈ scenarioFlows, f.protocol = Proto.tcp) ∧
    (netperfSsFilter ∈
        (schedulerState allDeps true scenarioFlows []).ssFilters ∧
      ((∃ f ∈ scenarioFlows, f.protocol = Proto.udp) →
        iperf3SsFilter ∈
          (schedulerState allDeps true scenarioFlows []).ssFilters) ∧
      (∀ c ∈ (schedulerState allDeps true scenarioFlows []).ssFilters,
        c = netperfSsFilter ∨ c = iperf3SsFilter) ∧
      (∀ r ∈ ssRunnersOf allDeps (schedulerState allDeps true scenarioFlows []),
        r.ssFilter =
          sAndJoin (schedulerState allDeps true scenarioFlows []).ssFilters ∧
        strContains netperfSsFilter r.ssFilter ∧
        ((∃ f ∈ scenarioFlows, f.protocol = Proto.udp) →
          strContains iperf3SsFilter r.ssFilter))) :=
  ⟨by decide,
   ss_filter_excludes_control_ports allDeps true scenarioFlows [] (by decide)⟩

theorem keys_ssFoldFrom (l : List Contribution) :
    ∀ (m : List (EndpointKey × ℤ × ℤ)) (k : EndpointKey),
      k ∈ keysOf (l.foldl (fun m c => ssScheduleUpdate m c.1 c.2.1 c.2.2) m) ↔
        k ∈ keysOf m ∨ k ∈ l.map (fun c => c.1) := by
  induction l with
  | nil => intro m k; simp
  | cons c rest ih =>
      intro m k
      rw [List.foldl_cons, ih, ssScheduleUpdate, keysOf_updateAssoc,
        List.map_cons, List.mem_cons]
      tauto

theorem nodup_keys_ssFoldFrom (l : List Contribution) :
    ∀ m : List (EndpointKey × ℤ × ℤ), (keysOf m).Nodup →
      (keysOf (l.foldl (fun m c => ssScheduleUpdate m c.1 c.2.1 c.2.2) m)).Nodup := by
  induction l with
  | nil => intro m h; exact h
  | cons c rest ih =>
      intro m h
      rw [List.foldl_cons]
      exact ih _ (nodup_keysOf_updateAssoc _ _ _ h)

theorem nodup_keys_ssSchedulesOf (l : List Contribution) :
    (keysOf (ssSchedulesOf l)).Nodup :=
  nodup_keys_ssFoldFrom l [] (by simp [keysOf])

theorem mem_keys_ssSchedulesOf (l : List Contribution) (k : EndpointKey) :
    k ∈ keysOf (ssSchedulesOf l) ↔ k ∈ l.map (fun c => c.1) := by
  rw [ssSchedulesOf, keys_ssFoldFrom]
  simp [keysOf]

theorem scheduler_ssSchedules (deps : Deps) (spb : Bool) (flows : List Flow)
    (coapFlows : List CoapFlow) (hn : deps.netperf = true) :
    (schedulerState deps spb flows coapFlows).ssSchedules =
      ssSchedulesOf (tcpContribs flows) := by
  rw [schedulerState, (coapFold_preserves deps coapFlows _).1,
    flowFold_ssSchedules, if_pos hn]
  rfl

theorem scheduler_ssRequired (deps : Deps) (spb : Bool) (flows : List Flow)
    (coapFlows : List CoapFlow) (htcp : ∃ f ∈ flows, f.protocol = Proto.tcp) :
    (schedulerState deps spb flows coapFlows).ssRequired = true := by
  rw [schedulerState, (coapFold_preserves deps coapFlows _).2.2.1,
    flowFold_ssRequired]
  obtain ⟨f, hf, hp⟩ := htcp
  have : flows.any (fun f => decide (f.protocol = Proto.tcp)) = true :=
    List.any_eq_true.2 ⟨f, hf, by simp [hp]⟩
  rw [this, Bool.or_true]

/-- **C3.** Exactly one socket-stats Runner is created per distinct endpoint
triple `(src, dst, addr)` appearing among the TCP Flows (the runner triples
are duplicate-free, and a triple has a runner iff some TCP Flow has it), each
runner covering that triple's merged window: start = merged start and
duration = merged stop − merged start; in particular the spec's three-flow
scenario `[0,5]`, `[2,8]`, `[1,3]` on one endpoint pair yields exactly one
runner with start time `0` and run duration `8`. -/
theorem one_ss_runner_per_endpoint (deps : Deps) (spb : Bool)
    (flows : List Flow) (coapFlows : List CoapFlow)
    (hnp : deps.netperf = true) (hss : deps.ss = true)
    (htcp : ∃ f ∈ flows, f.protocol = Proto.tcp) :
    ((ssRunnersOf deps (schedulerState deps spb flows coapFlows)).map
        (fun r => (r.nsName, r.dstNs, r.destinationIp))).Nodup ∧
    (∀ k : EndpointKey,
      k ∈ (ssRunnersOf deps (schedulerState deps spb flows coapFlows)).map
          (fun r => (r.nsName, r.dstNs, r.destinationIp)) ↔
        ∃ f ∈ flows, f.protocol = Proto.tcp ∧
          (f.srcNs, f.dstNs, f.dstAddr) = k) ∧
    (∀ r ∈ ssRunnersOf deps (schedulerState deps spb flows coapFlows),
      ∃ s t : ℤ,
        specWindow (tcpContribs flows) (r.nsName, r.dstNs, r.destinationIp)
          = (↑s, ↑t) ∧
        r.startTime = s ∧ r.runTime = t - s) ∧
    ssRunnersOf allDeps (schedulerState allDeps true scenarioFlows []) =
      [({ nsName := "h1", destinationIp := "10.0.0.2", startTime := 0,
          runTime := 8, dstNs := "h2",
          ssFilter := netperfSsFilter } : SsRunnerSpec)] := by
  have hreq := scheduler_ssRequired deps spb flows coapFlows htcp
  have hsched := scheduler_ssSchedules deps spb flows coapFlows hnp
  have hrunners : ssRunnersOf deps (schedulerState deps spb flows coapFlows) =
      (ssSchedulesOf (tcpContribs flows)).map fun kv =>
        { nsName := kv.1.1, destinationIp := kv.1.2.2,
          startTime := kv.2.1, runTime := kv.2.2 - kv.2.1,
          dstNs := kv.1.2.1,
          ssFilter :=
            sAndJoin (schedulerState deps spb flows coapFlows).ssFilters } := by
    rw [ssRunnersOf, if_pos hreq, if_pos hss, hsched]
  have htriples : (ssRunnersOf deps
        (schedulerState deps spb flows coapFlows)).map
        (fun r => (r.nsName, r.dstNs, r.destinationIp)) =
      keysOf (ssSchedulesOf (tcpContribs flows)) := by
    rw [hrunners, List.map_map]
    rfl
  refine ⟨?_, ?_, ?_, ?_⟩
  · rw [htriples]
    exact nodup_keys_ssSchedulesOf _
  · intro k
    rw [htriples, mem_keys_ssSchedulesOf, tcpContribs, List.map_map]
    constructor
    · intro hk
      obtain ⟨f, hf, he⟩ := List.mem_map.1 hk
      exact ⟨f, (List.mem_filter.1 hf).1,
        by simpa using (List.mem_filter.1 hf).2, he⟩
    · rintro ⟨f, hf, hp, he⟩
      exact List.mem_map.2 ⟨f, List.mem_filter.2 ⟨hf, by simp [hp]⟩, he⟩
  · intro r hr
    rw [hrunners] at hr
    obtain ⟨kv, hkv, rfl⟩ := List.mem_map.1 hr
    have hk : kv.1 ∈ keysOf (ssSchedulesOf (tcpContribs flows)) :=
      List.mem_map.2 ⟨kv, hkv, rfl⟩
    obtain ⟨s, t, hlook, _, hspec⟩ := window_core (tcpContribs flows) kv.1
      ((mem_keys_ssSchedulesOf _ _).1 hk)
    have hlook2 : lookupA (ssSchedulesOf (tcpContribs flows)) kv.1
        = some kv.2 :=
      lookupA_eq_some_of_mem (nodup_keys_ssSchedulesOf _) hkv
    rw [hlook2] at hlook
    have hkv2 : kv.2 = (s, t) := Option.some.inj hlook
    refine ⟨s, t, hspec, ?_, ?_⟩
    · show kv.2.1 = s
      rw [hkv2]
    · show kv.2.2 - kv.2.1 = t - s
      rw [hkv2]
  · decide

/-- Witness for C3 at the concrete scenario input. -/
theorem one_ss_runner_per_endpoint_witness :
    ((allDeps.netperf = true ∧ allDeps.ss = true ∧
      ∃ f ∈ scenarioFlows, f.protocol = Proto.tcp) ∧
    ∀ r ∈ ssRunnersOf allDeps (schedulerState allDeps true scenarioFlows []),
      ∃ s t : ℤ,
        specWindow (tcpContribs scenarioFlows)
          (r.nsName, r.dstNs, r.destinationIp) = (↑s, ↑t) ∧
        r.startTime = s ∧ r.runTime = t - s) :=
  ⟨⟨by decide, by decide, by decide⟩,
   (one_ss_runner_per_endpoint allDeps true scenarioFlows [] (by decide)
     (by decide) (by decide)).2.2.1⟩

end NeST
